import Mathlib

set_option linter.unusedVariables false

/-!
Verification of the line parser of nvim-bnf (`pkg/parser` and
`pkg/highlighting/document.go` of the repository).

Modelling conventions.  A byte buffer is a `List Nat` and a parser cursor
is a `Nat` offset into it.  Every Go method of `SemanticParser` and
`SyntacticParser` mutates `p.pos` in place (also on the error path), so
each method becomes a pure function from the buffer and the cursor to a
`Res` value carrying the returned value together with the cursor after
the call.  An indexed read of the byte buffer at an offset not below its
length is modelled as `Res.panic` (a Go index-out-of-range fault); the
one multi-byte slice expression of the semantic parser is bounds-checked
by Go against the buffer's capacity, not its length, and
`ioutil.ReadAll` always leaves zero-filled spare capacity, so that read
is modelled as yielding a zero byte past the length (see
`Sem.parseDefinitionSimbol`).  The `bufio.Scanner` feeding the syntactic
parser refuses lines of `MaxScanTokenSize` (64 KiB) bytes or more,
failing with `ErrTooLong`; the line splitting models this limit.  Loops
of the source are given explicit fuel, `Res.spin` standing for fuel
exhaustion; the fuel each entry point supplies is proved sufficient, so
`spin` is unreachable.

The concrete node types of `ast.go` (`Terminal`, `NonTerminal`,
`Comment`, `Statement`, `AssignmentExpression`, `AlternativeExpression`,
`CompoundExpression`) are modelled as one inductive `GNode` with the
`Left`/`Right` accessors of the source; a Go `Node` value that may be a
nil pointer is an `Option GNode`.
-/

/-- Byte sequence of a string literal, used to write concrete inputs. -/
def bytesOf (s : String) : List Nat := s.data.map Char.toNat

/-- Errors of `pkg/parser`: `io.EOF`, `ErrUnexpectedChar`,
`ErrNoStatements`, `ErrEmptyRule`, `bufio.ErrTooLong` (a scanned line
over the scanner's token-size limit), the positioned wrapper
`Error{err, pos}` and `DescError` (which wraps an `Error` and a
description string). -/
inductive Err where
  | eof : Err
  | unexpectedChar : Err
  | noStatements : Err
  | emptyRule : Err
  | tooLong : Err
  | wrap : Err → Nat → Err
  | desc : Err → Nat → String → Err
deriving DecidableEq

/-- The `Token` struct of `ast.go`: a name and begin/end byte offsets. -/
structure Tok where
  name : List Nat
  beginPos : Nat
  endPos : Nat
deriving DecidableEq

/-- The closed set of concrete `Node` implementations of `ast.go`.
Children that are nil-able Go pointers are `Option GNode`. -/
inductive GNode where
  | terminal : Tok → GNode
  | nonTerminal : Tok → GNode
  | comment : Tok → GNode
  | statement : Option GNode → Option GNode → GNode
  | assignment : Tok → Option GNode → Option GNode → GNode
  | alternative : Tok → Option GNode → Option GNode → GNode
  | compound : Tok → Option GNode → Option GNode → GNode

/-- The `Left()` accessor of `ast.go`: token leaves return nil, a
`Statement` returns its rule, the expression types their left child. -/
def GNode.left : GNode → Option GNode
  | .terminal _ => none
  | .nonTerminal _ => none
  | .comment _ => none
  | .statement rule _ => rule
  | .assignment _ l _ => l
  | .alternative _ l _ => l
  | .compound _ l _ => l

/-- The `Right()` accessor of `ast.go`: token leaves return nil, a
`Statement` returns its comment, the expression types their right child. -/
def GNode.right : GNode → Option GNode
  | .terminal _ => none
  | .nonTerminal _ => none
  | .comment _ => none
  | .statement _ c => c
  | .assignment _ _ r => r
  | .alternative _ _ r => r
  | .compound _ _ r => r

/-- Result of one parser method call: the value and the cursor after the
call, or the error and the cursor after the call, or a runtime fault
(`panic`), or fuel exhaustion (`spin`, proved unreachable). -/
inductive Res (α : Type) where
  | panic : Res α
  | spin : Res α
  | ok : α → Nat → Res α
  | err : Err → Nat → Res α
deriving DecidableEq

/-! ### Lexical primitives shared verbatim by `semantic.go` and
`syntactic.go` (the two files contain textually identical copies of
these methods). -/

/-- Method `parseChar`: the `eof` guard (`p.pos == len(p.buf)`), then a
read of `p.buf[p.pos]`.  A cursor beyond the length fails the `eof` test
in Go and the read faults, hence the `panic` arm. -/
def parseChar (buf : List Nat) (c : Nat) (p : Nat) : Res Nat :=
  if p = buf.length then .err .eof p
  else
    match buf[p]? with
    | none => .panic
    | some b => if b = c then .ok b (p + 1) else .err .unexpectedChar p

/-- Method `parseLetter` (`0x41..0x5a` or `0x61..0x7a`). -/
def parseLetter (buf : List Nat) (p : Nat) : Res Nat :=
  if p = buf.length then .err .eof p
  else
    match buf[p]? with
    | none => .panic
    | some b =>
      if (0x41 ≤ b ∧ b ≤ 0x5a) ∨ (0x61 ≤ b ∧ b ≤ 0x7a) then .ok b (p + 1)
      else .err .unexpectedChar p

/-- Method `parseDigit` (`0x30..0x39`). -/
def parseDigit (buf : List Nat) (p : Nat) : Res Nat :=
  if p = buf.length then .err .eof p
  else
    match buf[p]? with
    | none => .panic
    | some b => if 0x30 ≤ b ∧ b ≤ 0x39 then .ok b (p + 1) else .err .unexpectedChar p

/-- The symbol list of method `parseSymbol`, as byte values in the order
of the source. -/
def symbolBytes : List Nat :=
  [124, 32, 33, 35, 36, 37, 38, 40, 41, 42, 43, 44, 45, 46,
   47, 58, 59, 62, 61, 60, 63, 64, 91, 92, 93, 94, 95, 96,
   123, 125, 126]

/-- Method `parseSymbol`: a linear scan over the symbol list. -/
def parseSymbol (buf : List Nat) (p : Nat) : Res Nat :=
  if p = buf.length then .err .eof p
  else
    match buf[p]? with
    | none => .panic
    | some b => if b ∈ symbolBytes then .ok b (p + 1) else .err .unexpectedChar p

/-- Method `parseHyphen`. -/
def parseHyphen (buf : List Nat) (p : Nat) : Res Nat := parseChar buf 45 p

/-- Method `parseQuote` (single quote). -/
def parseQuote (buf : List Nat) (p : Nat) : Res Nat := parseChar buf 39 p

/-- Method `parseDoubleQuote`. -/
def parseDoubleQuote (buf : List Nat) (p : Nat) : Res Nat := parseChar buf 34 p

/-- Method `parseVerticalBar`. -/
def parseVerticalBar (buf : List Nat) (p : Nat) : Res Nat := parseChar buf 124 p

/-- Method `parseLAngle`. -/
def parseLAngle (buf : List Nat) (p : Nat) : Res Nat := parseChar buf 60 p

/-- Method `parseRAngle`. -/
def parseRAngle (buf : List Nat) (p : Nat) : Res Nat := parseChar buf 62 p

/-- Method `parseEOL` (a newline byte). -/
def parseEOL (buf : List Nat) (p : Nat) : Res Nat := parseChar buf 10 p

/-- The loop of method `parseOptWhitespace`, with the remaining buffer
length as structural fuel (the loop advances one byte per iteration, so
`buf.length - p` steps always suffice). -/
def skipSpacesAux (buf : List Nat) : Nat → Nat → Nat
  | 0, p => p
  | k + 1, p =>
    if h : p < buf.length then
      if buf[p] = 32 then skipSpacesAux buf k (p + 1) else p
    else p

/-- Cursor after the loop of method `parseOptWhitespace`: skip space
bytes while the cursor is below the length. -/
def skipSpaces (buf : List Nat) (p : Nat) : Nat :=
  skipSpacesAux buf (buf.length - p) p

/-- Method `parseOptWhitespace`: always returns a nil error. -/
def parseOptWhitespace (buf : List Nat) (p : Nat) : Res Unit :=
  .ok () (skipSpaces buf p)

/-- Method `parseRuleChar`: a letter, a digit or a hyphen. -/
def parseRuleChar (buf : List Nat) (p : Nat) : Res Nat :=
  match parseLetter buf p with
  | .ok b p1 => .ok b p1
  | .panic => .panic
  | .spin => .spin
  | .err _ _ =>
    match parseDigit buf p with
    | .ok b p1 => .ok b p1
    | .panic => .panic
    | .spin => .spin
    | .err _ _ =>
      match parseHyphen buf p with
      | .ok b p1 => .ok b p1
      | .panic => .panic
      | .spin => .spin
      | .err _ _ => .err .unexpectedChar p

/-- The collecting loop of method `parseRuleName`, with explicit fuel. -/
def ruleNameLoop (buf : List Nat) : Nat → List Nat → Nat → Res (List Nat)
  | 0, _, _ => .spin
  | fuel + 1, acc, p =>
    match parseRuleChar buf p with
    | .ok b p1 => ruleNameLoop buf fuel (acc ++ [b]) p1
    | .err _ _ => .ok acc p
    | .panic => .panic
    | .spin => .spin

/-- Method `parseRuleName`: one mandatory letter, then rule characters. -/
def parseRuleName (buf : List Nat) (p : Nat) : Res (List Nat) :=
  match parseLetter buf p with
  | .ok b p1 => ruleNameLoop buf (buf.length - p1 + 1) [b] p1
  | .err e p1 => .err e p1
  | .panic => .panic
  | .spin => .spin

/-- Method `parseCharacter`: a letter, a digit or a symbol. -/
def parseCharacter (buf : List Nat) (p : Nat) : Res Nat :=
  match parseLetter buf p with
  | .ok b p1 => .ok b p1
  | .panic => .panic
  | .spin => .spin
  | .err _ _ =>
    match parseDigit buf p with
    | .ok b p1 => .ok b p1
    | .panic => .panic
    | .spin => .spin
    | .err _ _ =>
      match parseSymbol buf p with
      | .ok b p1 => .ok b p1
      | .panic => .panic
      | .spin => .spin
      | .err _ _ => .err .unexpectedChar p

/-- Method `parseCharacterAndQuote`: a single quote, else a character. -/
def parseCharacterAndQuote (buf : List Nat) (p : Nat) : Res Nat :=
  match parseQuote buf p with
  | .ok b p1 => .ok b p1
  | .panic => .panic
  | .spin => .spin
  | .err _ _ => parseCharacter buf p

/-- Method `parseCharacterAndDoubleQuote`: a double quote, else a
character. -/
def parseCharacterAndDoubleQuote (buf : List Nat) (p : Nat) : Res Nat :=
  match parseDoubleQuote buf p with
  | .ok b p1 => .ok b p1
  | .panic => .panic
  | .spin => .spin
  | .err _ _ => parseCharacter buf p

/-- Method `parseDisjunction` (identical in the two files): the vertical
bar, wrapped into a token whose positions are computed from the cursor
after the bar. -/
def parseDisjunction (buf : List Nat) (p : Nat) : Res Tok :=
  match parseVerticalBar buf p with
  | .err e p1 => .err e p1
  | .ok _ p1 => .ok ⟨[124], p1 - 1, p1⟩ p1
  | .panic => .panic
  | .spin => .spin

/-- The byte-level content loop of a double-quoted literal (both files
contain the same loop): collect `parseCharacterAndQuote` results until
one fails. -/
def literalLoopDQ (buf : List Nat) : Nat → List Nat → Nat → Res (List Nat)
  | 0, _, _ => .spin
  | fuel + 1, acc, p =>
    match parseCharacterAndQuote buf p with
    | .ok b p1 => literalLoopDQ buf fuel (acc ++ [b]) p1
    | .err _ _ => .ok acc p
    | .panic => .panic
    | .spin => .spin

/-- The byte-level content loop of a single-quoted literal: collect
`parseCharacterAndDoubleQuote` results until one fails. -/
def literalLoopSQ (buf : List Nat) : Nat → List Nat → Nat → Res (List Nat)
  | 0, _, _ => .spin
  | fuel + 1, acc, p =>
    match parseCharacterAndDoubleQuote buf p with
    | .ok b p1 => literalLoopSQ buf fuel (acc ++ [b]) p1
    | .err _ _ => .ok acc p
    | .panic => .panic
    | .spin => .spin

/-! ### The permissive tokenizer (`syntactic.go`) -/

namespace Syn

/-- The end-offset scan of `parseComment`, with the remaining buffer
length as structural fuel. -/
def commentEndAux (buf : List Nat) : Nat → Nat → Nat
  | 0, e => e
  | k + 1, e =>
    if h : e < buf.length then
      if buf[e] = 10 ∨ buf[e] = 0 then e else commentEndAux buf k (e + 1)
    else e

/-- End offset of a comment token: the scan of `parseComment` starting at
`p.pos + 1`, stopping at a newline byte, a zero byte, or the buffer
length. -/
def commentEnd (buf : List Nat) (e : Nat) : Nat :=
  commentEndAux buf (buf.length - e) e

/-- Method `SyntacticParser.parseComment`: a semicolon, then everything
up to the end of line, returned as a `Comment` node whose token has no
name. -/
def parseComment (buf : List Nat) (p : Nat) : Res GNode :=
  if p = buf.length then .err .eof p
  else
    match buf[p]? with
    | none => .panic
    | some b =>
      if b = 59 then
        .ok (.comment ⟨[], p, commentEnd buf (p + 1)⟩) (commentEnd buf (p + 1))
      else .err .unexpectedChar p

/-- Method `SyntacticParser.parseDefinitionSimbol`: the out-of-buffer
check `p.pos+len(name) >= len(p.buf)` returns `io.EOF` (note `>=`, so a
`::=` occupying the final three bytes is rejected), then the three bytes
are compared with `::=`. -/
def parseDefinitionSimbol (buf : List Nat) (p : Nat) : Res Tok :=
  if p + 3 ≥ buf.length then .err .eof p
  else if (buf.drop p).take 3 = [58, 58, 61] then .ok ⟨[58, 58, 61], p, p + 3⟩ (p + 3)
  else .err .unexpectedChar p

/-- Method `SyntacticParser.parseLiteral`: a double- or single-quoted
byte run; a missing closing quote or a non-quote first byte produces a
`DescError` describing a terminal at the current position. -/
def parseLiteral (buf : List Nat) (p : Nat) : Res (List Nat) :=
  if p = buf.length then .err .eof p
  else
    match buf[p]? with
    | none => .panic
    | some b =>
      if b = 34 then
        match parseDoubleQuote buf p with
        | .ok _ p1 =>
          match literalLoopDQ buf (buf.length - p1 + 1) [] p1 with
          | .ok lit p2 =>
            match parseDoubleQuote buf p2 with
            | .ok _ p3 => .ok lit p3
            | .err e p3 => .err (.desc e p3 "terminal") p3
            | .panic => .panic
            | .spin => .spin
          | .err e p2 => .err e p2
          | .panic => .panic
          | .spin => .spin
        | .err e p1 => .err e p1
        | .panic => .panic
        | .spin => .spin
      else if b = 39 then
        match parseQuote buf p with
        | .ok _ p1 =>
          match literalLoopSQ buf (buf.length - p1 + 1) [] p1 with
          | .ok lit p2 =>
            match parseQuote buf p2 with
            | .ok _ p3 => .ok lit p3
            | .err e p3 => .err (.desc e p3 "terminal") p3
            | .panic => .panic
            | .spin => .spin
          | .err e p2 => .err e p2
          | .panic => .panic
          | .spin => .spin
        | .err e p1 => .err e p1
        | .panic => .panic
        | .spin => .spin
      else .err (.desc .unexpectedChar p "terminal") p

/-- Method `SyntacticParser.parseNonTerminal`: angle brackets around a
rule name, yielding a `NonTerminal` node; every failure is wrapped into
a `DescError` positioned at the starting cursor. -/
def parseNonTerminal (buf : List Nat) (p : Nat) : Res GNode :=
  match parseLAngle buf p with
  | .err e p1 => .err (.desc e p "non-terminal") p1
  | .ok _ p1 =>
    match parseRuleName buf p1 with
    | .err e p2 => .err (.desc e p "non-terminal") p2
    | .ok nm p2 =>
      match parseRAngle buf p2 with
      | .err e p3 => .err (.desc e p "non-terminal") p3
      | .ok _ p3 => .ok (.nonTerminal ⟨nm, p, p3⟩) p3
      | .panic => .panic
      | .spin => .spin
    | .panic => .panic
    | .spin => .spin
  | .panic => .panic
  | .spin => .spin

/-- Method `SyntacticParser.parseAtom`: a terminal literal, else a
non-terminal attempted from the cursor the failed literal attempt left
behind. -/
def parseAtom (buf : List Nat) (p : Nat) : Res GNode :=
  match parseLiteral buf p with
  | .ok lit p1 => .ok (.terminal ⟨lit, p, p1⟩) p1
  | .err _ p1 => parseNonTerminal buf p1
  | .panic => .panic
  | .spin => .spin

/-- One iteration of the token loop of `SyntacticParser.parseRule`: try
the disjunction symbol, the assignment symbol, an atom and a comment in
this order, each from the cursor the previous failed attempt left
behind; if all four fail, advance the cursor by one byte and produce no
token. -/
def ruleStep (buf : List Nat) (p : Nat) : Res (Option GNode) :=
  match parseDisjunction buf p with
  | .ok tok p1 => .ok (some (.alternative tok none none)) p1
  | .err _ p1 =>
    match parseDefinitionSimbol buf p1 with
    | .ok tok p2 => .ok (some (.assignment tok none none)) p2
    | .err _ p2 =>
      match parseAtom buf p2 with
      | .ok node p3 => .ok (some node) p3
      | .err _ p3 =>
        match parseComment buf p3 with
        | .ok node p4 => .ok (some node) p4
        | .err _ p4 => .ok none (p4 + 1)
        | .panic => .panic
        | .spin => .spin
      | .panic => .panic
      | .spin => .spin
    | .panic => .panic
    | .spin => .spin
  | .panic => .panic
  | .spin => .spin

/-- The token loop of `SyntacticParser.parseRule`, with explicit fuel:
while the cursor is below the line length, run `ruleStep` and append the
token it produced, if any. -/
def ruleLoop (buf : List Nat) : Nat → List GNode → Nat → Res (List GNode)
  | 0, _, _ => .spin
  | fuel + 1, tokens, p =>
    if p < buf.length then
      match ruleStep buf p with
      | .ok none p1 => ruleLoop buf fuel tokens p1
      | .ok (some tok) p1 => ruleLoop buf fuel (tokens ++ [tok]) p1
      | .err e p1 => .err e p1
      | .panic => .panic
      | .spin => .spin
    else .ok tokens p

/-- Method `SyntacticParser.parseRule`: the token loop over one line;
the Go method always returns a nil error alongside the collected
tokens. -/
def parseRule (buf : List Nat) (p : Nat) : Res (List GNode) :=
  ruleLoop buf (buf.length - p + 1) [] p

end Syn

/-- Drop a final carriage-return byte, as `dropCR` of `bufio.ScanLines`
does for every scanned line. -/
def dropCR (l : List Nat) : List Nat :=
  if l.getLast? = some 13 then l.dropLast else l

/-- `bufio.MaxScanTokenSize`: the scanner never produces a token of
this many bytes or more; hitting such a line stops the scan with
`bufio.ErrTooLong`. -/
def maxScanTokenSize : Nat := 65536

/-- Split a byte sequence into lines the way `bufio.Scanner` with
`ScanLines` does: separators are newline bytes, a final line without a
trailing newline is kept, a trailing newline produces no extra empty
line, and each line loses a final carriage return.  A line of
`maxScanTokenSize` bytes or more (newline excluded, carriage return
included) does not fit the scanner's buffer: scanning stops there, the
second component records the `ErrTooLong` failure, and no further line
is produced. -/
def splitLinesAux : List Nat → List Nat → List (List Nat) × Bool
  | [], acc =>
    if maxScanTokenSize ≤ acc.length then ([], true)
    else if acc = [] then ([], false) else ([dropCR acc.reverse], false)
  | b :: rest, acc =>
    if b = 10 then
      if maxScanTokenSize ≤ acc.length then ([], true)
      else
        match splitLinesAux rest [] with
        | (ls, e) => (dropCR acc.reverse :: ls, e)
    else splitLinesAux rest (b :: acc)

/-- Lines of a byte sequence, per `bufio.Scanner` over the source. -/
def splitLines (buf : List Nat) : List (List Nat) := (splitLinesAux buf []).1

/-- Whether scanning the source stops with `bufio.ErrTooLong`: some line
reaches the scanner's token-size limit. -/
def tooLong (buf : List Nat) : Bool := (splitLinesAux buf []).2

/-- The `AST` struct of `parser.go`: the saved semantic parsing error,
the per-line token lists of the syntactic (degraded) mode, the parsed
statements of the semantic (strict) mode — nil-able `*Statement`
pointers, hence `Option GNode` — and the mode flag. -/
structure AST where
  err : Option Err
  lemmes : List (List GNode)
  rules : List (Option GNode)
  semantic : Bool

/-- Method `AST.NoRules`: length of `rules` in semantic mode, length of
`lemmes` otherwise. -/
def AST.NoRules (ast : AST) : Nat :=
  if ast.semantic then ast.rules.length else ast.lemmes.length

/-- Result of a top-level `Parse` call: the returned AST, or the
returned error (with a nil AST), or a runtime fault, or fuel
exhaustion. -/
inductive PRes where
  | panic : PRes
  | spin : PRes
  | ok : AST → PRes
  | err : Err → PRes

namespace Syn

/-- The per-line scanner loop of `SyntacticParser.parseSyntax`: for each
scanned line the parser state is reset (`p.pos = 0`) and `parseRule`
runs; its result is appended when the error is nil (it always is).  The
second argument threads `p.pos`, which after the loop is wherever the
last line's `parseRule` left it. -/
def parseLines : List (List Nat) → Nat → Res (List (List GNode))
  | [], pos => .ok [] pos
  | line :: rest, _ =>
    match parseRule line 0 with
    | .ok toks q =>
      match parseLines rest q with
      | .ok ls q2 => .ok (toks :: ls) q2
      | .err e q2 => .err e q2
      | .panic => .panic
      | .spin => .spin
    | .err _ q => parseLines rest q
    | .panic => .panic
    | .spin => .spin

/-- Method `SyntacticParser.Parse`: scan the source line by line, then
return the token lists wrapped into a non-semantic `AST` — unless the
scanner stopped with `ErrTooLong` (a line at the token-size limit), in
which case `parseSyntax` returns `scanner.Err()` and `Parse` wraps it
into `&Error{err, p.pos+1}` with a nil AST.  A `parseRule` error would
be wrapped the same way, but `parseRule` cannot fail. -/
def Parse (source : List Nat) : PRes :=
  match parseLines (splitLines source) 0 with
  | .ok lemmes pos =>
    if tooLong source then .err (.wrap .tooLong (pos + 1))
    else .ok ⟨none, lemmes, [], false⟩
  | .err e q => .err (.wrap e (q + 1))
  | .panic => .panic
  | .spin => .spin

end Syn

/-! ### The strict parser (`semantic.go`)

The control flow, cursor arithmetic and error propagation below follow
`pkg/parser/semantic.go` line by line.  That revision of the file still
returns the older `BNF`/`ProductionRule`/`Stmt`/`Term` values, while
`parser.go`, `ast.go`, `document.go` and the newer test file require the
semantic parser to produce `*AST` with `Statement`,
`AssignmentExpression`, `AlternativeExpression`, `CompoundExpression`,
`Terminal` and `NonTerminal` nodes; the revision that does so is not in
the tree.  Node construction is therefore modelled from the spec (and
pinned by `ast.go` and `semantic_test.go`): lists become right-threaded
`CompoundExpression` chains with the last element uplifted, a
disjunction becomes an `AlternativeExpression`, a rule becomes a
`Statement` holding an `AssignmentExpression` and no comment.  The old
`ProductionRule`/`Stmt`/`List` values have exactly the same
left/right-child shapes, so the traversal behaviour is unchanged. -/

namespace Sem

/-- Method `SemanticParser.parseDefinitionSimbol`: the source reads
`p.buf[p.pos : p.pos+3]` with no length check and compares it with
`::=`.  A Go slice expression is bounds-checked against the buffer's
capacity, not its length, and `ioutil.ReadAll` always returns a slice
with zero-filled spare capacity (at least `bytes.MinRead` bytes beyond
the length), so for every cursor the parser can reach the read succeeds
and each position at or past the length yields a zero byte — hence
`List.getD _ _ 0` below, and a mismatch (three zero bytes can never
equal `::=`) is `ErrUnexpectedChar` at the unmoved cursor. -/
def parseDefinitionSimbol (buf : List Nat) (p : Nat) : Res Tok :=
  if [buf.getD p 0, buf.getD (p + 1) 0, buf.getD (p + 2) 0] = [58, 58, 61] then
    .ok ⟨[58, 58, 61], p, p + 3⟩ (p + 3)
  else .err .unexpectedChar p

/-- Method `SemanticParser.parseLiteral`: as the syntactic one but the
errors are returned unwrapped (no `DescError`). -/
def parseLiteral (buf : List Nat) (p : Nat) : Res (List Nat) :=
  if p = buf.length then .err .eof p
  else
    match buf[p]? with
    | none => .panic
    | some b =>
      if b = 34 then
        match parseDoubleQuote buf p with
        | .ok _ p1 =>
          match literalLoopDQ buf (buf.length - p1 + 1) [] p1 with
          | .ok lit p2 =>
            match parseDoubleQuote buf p2 with
            | .ok _ p3 => .ok lit p3
            | .err e p3 => .err e p3
            | .panic => .panic
            | .spin => .spin
          | .err e p2 => .err e p2
          | .panic => .panic
          | .spin => .spin
        | .err e p1 => .err e p1
        | .panic => .panic
        | .spin => .spin
      else if b = 39 then
        match parseQuote buf p with
        | .ok _ p1 =>
          match literalLoopSQ buf (buf.length - p1 + 1) [] p1 with
          | .ok lit p2 =>
            match parseQuote buf p2 with
            | .ok _ p3 => .ok lit p3
            | .err e p3 => .err e p3
            | .panic => .panic
            | .spin => .spin
          | .err e p2 => .err e p2
          | .panic => .panic
          | .spin => .spin
        | .err e p1 => .err e p1
        | .panic => .panic
        | .spin => .spin
      else .err .unexpectedChar p

/-- Method `SemanticParser.parseNonTerminal`: angle brackets around a
rule name; errors are returned unwrapped.  The node built is the
`NonTerminal` of `ast.go` (the old revision returns a `*Term` with the
same name and positions). -/
def parseNonTerminal (buf : List Nat) (p : Nat) : Res GNode :=
  match parseLAngle buf p with
  | .err e p1 => .err e p1
  | .ok _ p1 =>
    match parseRuleName buf p1 with
    | .err e p2 => .err e p2
    | .ok nm p2 =>
      match parseRAngle buf p2 with
      | .err e p3 => .err e p3
      | .ok _ p3 => .ok (.nonTerminal ⟨nm, p, p3⟩) p3
      | .panic => .panic
      | .spin => .spin
    | .panic => .panic
    | .spin => .spin
  | .panic => .panic
  | .spin => .spin

/-- Method `SemanticParser.parseTerm`: a terminal literal, else a
non-terminal attempted from the cursor the failed literal attempt left
behind. -/
def parseTerm (buf : List Nat) (p : Nat) : Res GNode :=
  match parseLiteral buf p with
  | .ok lit p1 => .ok (.terminal ⟨lit, p, p1⟩) p1
  | .err _ p1 =>
    match parseNonTerminal buf p1 with
    | .ok n p2 => .ok n p2
    | .err e p2 => .err e p2
    | .panic => .panic
    | .spin => .spin
  | .panic => .panic
  | .spin => .spin

/-- Modelled from the spec: the right-threaded `CompoundExpression`
chain over a term list, with the last element uplifted directly into the
chain, so a one-element list collapses to its element (spec sections 3
and 4.2; the uplift is also pinned by `semantic_test.go`).  The missing
current `semantic.go` builds this chain; the connecting token carries no
name or position information that the source pins down, so it is left
empty. -/
def listToNode : List GNode → Option GNode
  | [] => none
  | [t] => some t
  | t :: u :: rest =>
    match listToNode (u :: rest) with
    | some tail => some (.compound ⟨[], 0, 0⟩ (some t) (some tail))
    | none => none

/-- The collecting loop of method `SemanticParser.parseList`: save the
cursor, skip whitespace, parse a term; on failure restore the saved
cursor and stop. -/
def listLoop (buf : List Nat) : Nat → List GNode → Nat → Res (List GNode)
  | 0, _, _ => .spin
  | fuel + 1, terms, p =>
    match parseOptWhitespace buf p with
    | .ok _ p1 =>
      match parseTerm buf p1 with
      | .ok t p2 => listLoop buf fuel (terms ++ [t]) p2
      | .err _ _ => .ok terms p
      | .panic => .panic
      | .spin => .spin
    | .err _ _ => .ok terms p
    | .panic => .panic
    | .spin => .spin

/-- Method `SemanticParser.parseList`: one mandatory term (its failure
propagates with the cursor wherever the attempt left it), then the
collecting loop; the result list is returned as a node chain per
`listToNode`. -/
def parseList (buf : List Nat) (p : Nat) : Res GNode :=
  match parseTerm buf p with
  | .err e p1 => .err e p1
  | .ok t p1 =>
    match listLoop buf (buf.length - p1 + 1) [t] p1 with
    | .ok terms p2 =>
      match listToNode terms with
      | some n => .ok n p2
      | none => .panic
    | .err e p2 => .err e p2
    | .panic => .panic
    | .spin => .spin
  | .panic => .panic
  | .spin => .spin

/-- Method `SemanticParser.parseExpression` with explicit fuel: parse
one list and record the cursor; then try whitespace, the disjunction
bar, whitespace and a recursive expression, restoring the recorded
cursor and returning the list alone if any of these fails; on success
the parts join into an `AlternativeExpression` (the old revision's
`Stmt` has the same children). -/
def parseExpressionF (buf : List Nat) : Nat → Nat → Res GNode
  | 0, _ => .spin
  | fuel + 1, p =>
    match parseList buf p with
    | .err e p1 => .err e p1
    | .ok head p1 =>
      match parseOptWhitespace buf p1 with
      | .ok _ p2 =>
        match parseDisjunction buf p2 with
        | .err _ _ => .ok head p1
        | .ok tok p3 =>
          match parseOptWhitespace buf p3 with
          | .ok _ p4 =>
            match parseExpressionF buf fuel p4 with
            | .err _ _ => .ok head p1
            | .ok tail p5 => .ok (.alternative tok (some head) (some tail)) p5
            | .panic => .panic
            | .spin => .spin
          | .err _ _ => .ok head p1
          | .panic => .panic
          | .spin => .spin
        | .panic => .panic
        | .spin => .spin
      | .err _ _ => .ok head p1
      | .panic => .panic
      | .spin => .spin
    | .panic => .panic
    | .spin => .spin

/-- Method `SemanticParser.parseExpression` at its entry fuel. -/
def parseExpression (buf : List Nat) (p : Nat) : Res GNode :=
  parseExpressionF buf (buf.length - p + 1) p

/-- Method `SemanticParser.parseLineEnd` with explicit fuel: optional
whitespace, one newline, then a recursive attempt whose failure restores
the cursor; the method then reports success. -/
def parseLineEndF (buf : List Nat) : Nat → Nat → Res Unit
  | 0, _ => .spin
  | fuel + 1, p =>
    match parseOptWhitespace buf p with
    | .ok _ p1 =>
      match parseEOL buf p1 with
      | .err e p2 => .err e p2
      | .ok _ p2 =>
        match parseLineEndF buf fuel p2 with
        | .err _ _ => .ok () p2
        | .ok _ p3 => .ok () p3
        | .panic => .panic
        | .spin => .spin
      | .panic => .panic
      | .spin => .spin
    | .err e p1 => .err e p1
    | .panic => .panic
    | .spin => .spin

/-- Method `SemanticParser.parseLineEnd` at its entry fuel. -/
def parseLineEnd (buf : List Nat) (p : Nat) : Res Unit :=
  parseLineEndF buf (buf.length - p + 1) p

/-- Method `SemanticParser.parseRule`: whitespace, non-terminal,
whitespace, assignment symbol, whitespace, expression, line end (an
`io.EOF` from the line end counts as success).  The node built is the
`Statement` of `ast.go` holding an `AssignmentExpression` whose left
child is the rule name and whose right child is the expression, with no
comment (construction modelled from the spec; the old revision's
`ProductionRule` has the same children). -/
def parseRule (buf : List Nat) (p : Nat) : Res GNode :=
  match parseOptWhitespace buf p with
  | .ok _ p1 =>
    match parseNonTerminal buf p1 with
    | .err e p2 => .err e p2
    | .ok nameNode p2 =>
      match parseOptWhitespace buf p2 with
      | .ok _ p3 =>
        match parseDefinitionSimbol buf p3 with
        | .err e p4 => .err e p4
        | .ok tok p4 =>
          match parseOptWhitespace buf p4 with
          | .ok _ p5 =>
            match parseExpression buf p5 with
            | .err e p6 => .err e p6
            | .ok expr p6 =>
              match parseLineEnd buf p6 with
              | .err e p7 =>
                if e = .eof then
                  .ok (.statement (some (.assignment tok (some nameNode) (some expr))) none) p7
                else .err e p7
              | .ok _ p7 =>
                .ok (.statement (some (.assignment tok (some nameNode) (some expr))) none) p7
              | .panic => .panic
              | .spin => .spin
            | .panic => .panic
            | .spin => .spin
          | .err e p5 => .err e p5
          | .panic => .panic
          | .spin => .spin
        | .panic => .panic
        | .spin => .spin
      | .err e p3 => .err e p3
      | .panic => .panic
      | .spin => .spin
    | .panic => .panic
    | .spin => .spin
  | .err e p1 => .err e p1
  | .panic => .panic
  | .spin => .spin

/-- Method `SemanticParser.parseSyntax` with explicit fuel: parse one
rule; an `io.EOF` failure ends the input with a nil rule appended and a
nil error; any other failure of the first rule propagates; after a
successful rule the recursion continues, and a failure of the recursion
is swallowed, returning the rules collected so far with a nil error. -/
def parseAllF (buf : List Nat) : Nat → Nat → Res (List (Option GNode))
  | 0, _ => .spin
  | fuel + 1, p =>
    match parseRule buf p with
    | .err e p1 => if e = .eof then .ok [none] p1 else .err e p1
    | .ok rule p1 =>
      match parseAllF buf fuel p1 with
      | .err _ p2 => .ok [some rule] p2
      | .ok rules p2 => .ok (some rule :: rules) p2
      | .panic => .panic
      | .spin => .spin
    | .panic => .panic
    | .spin => .spin

/-- Method `SemanticParser.parseSyntax` at its entry fuel. -/
def parseAll (buf : List Nat) (p : Nat) : Res (List (Option GNode)) :=
  parseAllF buf (buf.length - p + 1) p

/-- Method `SemanticParser.Parse`: read the whole source, run the rule
recursion from cursor zero, wrap an error into `&Error{err, p.pos+1}`,
and wrap success into a semantic-mode `AST` with no saved error. -/
def Parse (source : List Nat) : PRes :=
  match parseAll source 0 with
  | .ok rules _ => .ok ⟨none, [], rules, true⟩
  | .err e q => .err (.wrap e (q + 1))
  | .panic => .panic
  | .spin => .spin

end Sem

/-- Function `Parse` of `parser.go`: try the semantic parser; on its
success return its AST; on its failure run the syntactic parser over the
same bytes, attach the semantic error to the degraded AST and return it;
a syntactic failure would be returned with a nil AST. -/
def Parse (source : List Nat) : PRes :=
  match Sem.Parse source with
  | .ok ast => .ok ast
  | .err e =>
    match Syn.Parse source with
    | .ok astSyn => .ok { astSyn with err := some e }
    | .err e2 => .err e2
    | .panic => .panic
    | .spin => .spin
  | .panic => .panic
  | .spin => .spin

/-! ### Traversal (`parser.go`) and the completion index
(`highlighting/document.go`) -/

/-- Result of a traversal: the visited-node count, the error returned
(nil on success), and the final visitor state — or a runtime fault or
fuel exhaustion inside the stack loop. -/
inductive TRes (σ : Type) where
  | panic : TRes σ
  | spin : TRes σ
  | done : Nat → Option Err → σ → TRes σ

mutual

/-- Node count of a tree, used only to compute fuel for the stack
loop. -/
def gsize : GNode → Nat
  | .terminal _ => 1
  | .nonTerminal _ => 1
  | .comment _ => 1
  | .statement r c => 1 + osize r + osize c
  | .assignment _ l r => 1 + osize l + osize r
  | .alternative _ l r => 1 + osize l + osize r
  | .compound _ l r => 1 + osize l + osize r

/-- Node count of an optional tree. -/
def osize : Option GNode → Nat
  | none => 0
  | some n => gsize n

end

/-- The stack loop of method `AST.visit`: the Go visitor is a closure
over mutable state, modelled by threading a state `σ` through the
visitor function.  A non-nil top has its left child pushed; a nil top is
popped, the loop ends if the stack emptied, and otherwise the new top is
replaced by its right child and visited, counting the visit first and
returning the incremented count if the visitor errs.  Replacing a nil
top would dereference a nil `Node` in Go, hence the `panic` arm (that
state is unreachable from a well-formed start). -/
def visitLoop {σ : Type} (f : GNode → σ → Option Err × σ) :
    Nat → List (Option GNode) → Nat → σ → TRes σ
  | 0, _, _, _ => .spin
  | fuel + 1, stack, counter, st =>
    match stack with
    | [] => .done counter none st
    | top :: rest =>
      match top with
      | some n => visitLoop f fuel (n.left :: top :: rest) counter st
      | none =>
        match rest with
        | [] => .done counter none st
        | t :: rest2 =>
          match t with
          | none => .panic
          | some n =>
            match f n st with
            | (some e, st2) => .done (counter + 1) (some e) st2
            | (none, st2) => visitLoop f fuel (n.right :: rest2) (counter + 1) st2

/-- Method `AST.visit` at a fuel large enough for the whole traversal
(the loop makes at most `2 * gsize root + 1` iterations). -/
def astVisit {σ : Type} (root : GNode) (f : GNode → σ → Option Err × σ) (st : σ) : TRes σ :=
  visitLoop f (2 * gsize root + 2) [some root] 0 st

/-- The indexed loop of method `AST.traverseSyntacticTree` over the
token list of the first line: visiting stops at the first visitor error,
returning the index at which it happened; full completion returns the
list length and a nil error. -/
def lineWalk {σ : Type} (f : GNode → σ → Option Err × σ) :
    List GNode → Nat → σ → TRes σ
  | [], idx, st => .done idx none st
  | n :: rest, idx, st =>
    match f n st with
    | (some e, st2) => .done idx (some e) st2
    | (none, st2) => lineWalk f rest (idx + 1) st2

/-- Method `AST.Traverse` of `parser.go`: in semantic mode an empty rule
list yields `(0, ErrNoStatements)`, a nil first rule yields
`(0, ErrEmptyRule)`, and otherwise the first rule is visited with the
stack loop; in syntactic mode an empty lemme list yields
`(0, ErrNoStatements)` and otherwise the first line is walked. -/
def AST.Traverse {σ : Type} (ast : AST) (f : GNode → σ → Option Err × σ) (st : σ) : TRes σ :=
  if ast.semantic then
    match ast.rules with
    | [] => .done 0 (some .noStatements) st
    | none :: _ => .done 0 (some .emptyRule) st
    | some r :: _ => astVisit r f st
  else
    match ast.lemmes with
    | [] => .done 0 (some .noStatements) st
    | line :: _ => lineWalk f line 0 st

/-- The process-wide `NonTerminalIndex` of `document.go`: a mapping from
non-terminal name to occurrence count with zero as default, modelled as
a function. -/
def Index : Type := List Nat → Nat

/-- The visitor of `Document.updateCompletionIndex`: on a `NonTerminal`
node read the stored counter for the node name and store the counter
plus one; other nodes leave the index untouched; the visitor never
errs. -/
def incVisitor (n : GNode) (idx : Index) : Option Err × Index :=
  match n with
  | .nonTerminal tok =>
    (none, fun name => if name = tok.name then idx tok.name + 1 else idx name)
  | _ => (none, idx)

/-- Method `Document.updateCompletionIndex`: traverse the AST with the
incrementing visitor. -/
def updateCompletionIndex (ast : AST) (idx : Index) : TRes Index :=
  ast.Traverse incVisitor idx

/-! ### Cursor discipline of the lexical primitives

For each parser function: an `ok` result with cursor `q` satisfies a
lower bound on `q` (every successful sub-parse consumes input) and stays
within the buffer when the call started within it; an `err` result never
moves the cursor backwards; `spin` cannot occur (the supplied fuel
covers every loop); `panic` cannot occur for calls starting within the
buffer. -/

theorem parseChar_ok {buf : List Nat} {c p v q : Nat}
    (h : parseChar buf c p = .ok v q) : q = p + 1 ∧ q ≤ buf.length := by
  unfold parseChar at h
  split_ifs at h with h1
  rcases hb : buf[p]? with _ | b <;> simp only [hb] at h
  · cases h
  · have hlt : p < buf.length := by
      rcases List.getElem?_eq_some_iff.mp hb with ⟨hlt, _⟩
      exact hlt
    split_ifs at h <;> cases h
    omega

theorem parseChar_err {buf : List Nat} {c p : Nat} {e : Err} {q : Nat}
    (h : parseChar buf c p = .err e q) : q = p := by
  unfold parseChar at h
  split_ifs at h
  · cases h; rfl
  · rcases hb : buf[p]? with _ | b <;> simp only [hb] at h
    · cases h
    · split_ifs at h <;> cases h
      rfl

theorem parseChar_ns {buf : List Nat} {c p : Nat} : parseChar buf c p ≠ .spin := by
  unfold parseChar
  split_ifs
  · simp
  · rcases hb : buf[p]? with _ | b <;> simp only [hb]
    · simp
    · split_ifs <;> simp

theorem parseChar_np {buf : List Nat} {c p : Nat} (hp : p ≤ buf.length) :
    parseChar buf c p ≠ .panic := by
  unfold parseChar
  split_ifs with h1
  · simp
  · rcases hb : buf[p]? with _ | b <;> simp only [hb]
    · rw [List.getElem?_eq_none_iff] at hb
      omega
    · split_ifs <;> simp

theorem parseLetter_ok {buf : List Nat} {p v q : Nat}
    (h : parseLetter buf p = .ok v q) : q = p + 1 ∧ q ≤ buf.length := by
  unfold parseLetter at h
  split_ifs at h with h1
  rcases hb : buf[p]? with _ | b <;> simp only [hb] at h
  · cases h
  · have hlt : p < buf.length := by
      rcases List.getElem?_eq_some_iff.mp hb with ⟨hlt, _⟩
      exact hlt
    split_ifs at h <;> cases h
    omega

theorem parseLetter_err {buf : List Nat} {p : Nat} {e : Err} {q : Nat}
    (h : parseLetter buf p = .err e q) : q = p := by
  unfold parseLetter at h
  split_ifs at h
  · cases h; rfl
  · rcases hb : buf[p]? with _ | b <;> simp only [hb] at h
    · cases h
    · split_ifs at h <;> cases h
      rfl

theorem parseLetter_ns {buf : List Nat} {p : Nat} : parseLetter buf p ≠ .spin := by
  unfold parseLetter
  split_ifs
  · simp
  · rcases hb : buf[p]? with _ | b <;> simp only [hb]
    · simp
    · split_ifs <;> simp

theorem parseLetter_np {buf : List Nat} {p : Nat} (hp : p ≤ buf.length) :
    parseLetter buf p ≠ .panic := by
  unfold parseLetter
  split_ifs
  · simp
  · rcases hb : buf[p]? with _ | b <;> simp only [hb]
    · rw [List.getElem?_eq_none_iff] at hb
      omega
    · split_ifs <;> simp

theorem parseDigit_ok {buf : List Nat} {p v q : Nat}
    (h : parseDigit buf p = .ok v q) : q = p + 1 ∧ q ≤ buf.length := by
  unfold parseDigit at h
  split_ifs at h with h1
  rcases hb : buf[p]? with _ | b <;> simp only [hb] at h
  · cases h
  · have hlt : p < buf.length := by
      rcases List.getElem?_eq_some_iff.mp hb with ⟨hlt, _⟩
      exact hlt
    split_ifs at h <;> cases h
    omega

theorem parseDigit_err {buf : List Nat} {p : Nat} {e : Err} {q : Nat}
    (h : parseDigit buf p = .err e q) : q = p := by
  unfold parseDigit at h
  split_ifs at h
  · cases h; rfl
  · rcases hb : buf[p]? with _ | b <;> simp only [hb] at h
    · cases h
    · split_ifs at h <;> cases h
      rfl

theorem parseDigit_ns {buf : List Nat} {p : Nat} : parseDigit buf p ≠ .spin := by
  unfold parseDigit
  split_ifs
  · simp
  · rcases hb : buf[p]? with _ | b <;> simp only [hb]
    · simp
    · split_ifs <;> simp

theorem parseDigit_np {buf : List Nat} {p : Nat} (hp : p ≤ buf.length) :
    parseDigit buf p ≠ .panic := by
  unfold parseDigit
  split_ifs
  · simp
  · rcases hb : buf[p]? with _ | b <;> simp only [hb]
    · rw [List.getElem?_eq_none_iff] at hb
      omega
    · split_ifs <;> simp

theorem parseSymbol_ok {buf : List Nat} {p v q : Nat}
    (h : parseSymbol buf p = .ok v q) : q = p + 1 ∧ q ≤ buf.length := by
  unfold parseSymbol at h
  split_ifs at h with h1
  rcases hb : buf[p]? with _ | b <;> simp only [hb] at h
  · cases h
  · have hlt : p < buf.length := by
      rcases List.getElem?_eq_some_iff.mp hb with ⟨hlt, _⟩
      exact hlt
    split_ifs at h <;> cases h
    omega

theorem parseSymbol_err {buf : List Nat} {p : Nat} {e : Err} {q : Nat}
    (h : parseSymbol buf p = .err e q) : q = p := by
  unfold parseSymbol at h
  split_ifs at h
  · cases h; rfl
  · rcases hb : buf[p]? with _ | b <;> simp only [hb] at h
    · cases h
    · split_ifs at h <;> cases h
      rfl

theorem parseSymbol_ns {buf : List Nat} {p : Nat} : parseSymbol buf p ≠ .spin := by
  unfold parseSymbol
  split_ifs
  · simp
  · rcases hb : buf[p]? with _ | b <;> simp only [hb]
    · simp
    · split_ifs <;> simp

theorem parseSymbol_np {buf : List Nat} {p : Nat} (hp : p ≤ buf.length) :
    parseSymbol buf p ≠ .panic := by
  unfold parseSymbol
  split_ifs
  · simp
  · rcases hb : buf[p]? with _ | b <;> simp only [hb]
    · rw [List.getElem?_eq_none_iff] at hb
      omega
    · split_ifs <;> simp

theorem parseRuleChar_ok {buf : List Nat} {p v q : Nat}
    (h : parseRuleChar buf p = .ok v q) : q = p + 1 ∧ q ≤ buf.length := by
  unfold parseRuleChar at h
  split at h
  · rename_i b p1 heq; cases h; exact parseLetter_ok heq
  · cases h
  · cases h
  · split at h
    · rename_i b p1 heq; cases h; exact parseDigit_ok heq
    · cases h
    · cases h
    · split at h
      · rename_i b p1 heq; cases h; exact parseChar_ok heq
      · cases h
      · cases h
      · cases h

theorem parseRuleChar_err {buf : List Nat} {p : Nat} {e : Err} {q : Nat}
    (h : parseRuleChar buf p = .err e q) : q = p := by
  unfold parseRuleChar at h
  split at h
  · cases h
  · cases h
  · cases h
  · split at h
    · cases h
    · cases h
    · cases h
    · split at h
      · cases h
      · cases h
      · cases h
      · cases h; rfl

theorem parseRuleChar_ns {buf : List Nat} {p : Nat} : parseRuleChar buf p ≠ .spin := by
  unfold parseRuleChar
  split
  · simp
  · simp
  · rename_i heq; exact absurd heq parseLetter_ns
  · split
    · simp
    · simp
    · rename_i heq; exact absurd heq parseDigit_ns
    · split
      · simp
      · simp
      · rename_i heq; exact absurd heq parseChar_ns
      · simp

theorem parseRuleChar_np {buf : List Nat} {p : Nat} (hp : p ≤ buf.length) :
    parseRuleChar buf p ≠ .panic := by
  unfold parseRuleChar
  split
  · simp
  · rename_i heq; exact absurd heq (parseLetter_np hp)
  · simp
  · split
    · simp
    · rename_i heq; exact absurd heq (parseDigit_np hp)
    · simp
    · split
      · simp
      · rename_i heq; exact absurd heq (parseChar_np hp)
      · simp
      · simp

theorem parseCharacter_ok {buf : List Nat} {p v q : Nat}
    (h : parseCharacter buf p = .ok v q) : q = p + 1 ∧ q ≤ buf.length := by
  unfold parseCharacter at h
  split at h
  · rename_i b p1 heq; cases h; exact parseLetter_ok heq
  · cases h
  · cases h
  · split at h
    · rename_i b p1 heq; cases h; exact parseDigit_ok heq
    · cases h
    · cases h
    · split at h
      · rename_i b p1 heq; cases h; exact parseSymbol_ok heq
      · cases h
      · cases h
      · cases h

theorem parseCharacter_err {buf : List Nat} {p : Nat} {e : Err} {q : Nat}
    (h : parseCharacter buf p = .err e q) : q = p := by
  unfold parseCharacter at h
  split at h
  · cases h
  · cases h
  · cases h
  · split at h
    · cases h
    · cases h
    · cases h
    · split at h
      · cases h
      · cases h
      · cases h
      · cases h; rfl

theorem parseCharacter_ns {buf : List Nat} {p : Nat} : parseCharacter buf p ≠ .spin := by
  unfold parseCharacter
  split
  · simp
  · simp
  · rename_i heq; exact absurd heq parseLetter_ns
  · split
    · simp
    · simp
    · rename_i heq; exact absurd heq parseDigit_ns
    · split
      · simp
      · simp
      · rename_i heq; exact absurd heq parseSymbol_ns
      · simp

theorem parseCharacter_np {buf : List Nat} {p : Nat} (hp : p ≤ buf.length) :
    parseCharacter buf p ≠ .panic := by
  unfold parseCharacter
  split
  · simp
  · rename_i heq; exact absurd heq (parseLetter_np hp)
  · simp
  · split
    · simp
    · rename_i heq; exact absurd heq (parseDigit_np hp)
    · simp
    · split
      · simp
      · rename_i heq; exact absurd heq (parseSymbol_np hp)
      · simp
      · simp

theorem parseCharacterAndQuote_ok {buf : List Nat} {p v q : Nat}
    (h : parseCharacterAndQuote buf p = .ok v q) : q = p + 1 ∧ q ≤ buf.length := by
  unfold parseCharacterAndQuote at h
  split at h
  · rename_i b p1 heq; cases h; exact parseChar_ok heq
  · cases h
  · cases h
  · exact parseCharacter_ok h

theorem parseCharacterAndQuote_err {buf : List Nat} {p : Nat} {e : Err} {q : Nat}
    (h : parseCharacterAndQuote buf p = .err e q) : q = p := by
  unfold parseCharacterAndQuote at h
  split at h
  · cases h
  · cases h
  · cases h
  · exact parseCharacter_err h

theorem parseCharacterAndQuote_ns {buf : List Nat} {p : Nat} :
    parseCharacterAndQuote buf p ≠ .spin := by
  unfold parseCharacterAndQuote
  split
  · simp
  · simp
  · rename_i heq; exact absurd heq parseChar_ns
  · exact parseCharacter_ns

theorem parseCharacterAndQuote_np {buf : List Nat} {p : Nat} (hp : p ≤ buf.length) :
    parseCharacterAndQuote buf p ≠ .panic := by
  unfold parseCharacterAndQuote
  split
  · simp
  · rename_i heq; exact absurd heq (parseChar_np hp)
  · simp
  · exact parseCharacter_np hp

theorem parseCharacterAndDoubleQuote_ok {buf : List Nat} {p v q : Nat}
    (h : parseCharacterAndDoubleQuote buf p = .ok v q) : q = p + 1 ∧ q ≤ buf.length := by
  unfold parseCharacterAndDoubleQuote at h
  split at h
  · rename_i b p1 heq; cases h; exact parseChar_ok heq
  · cases h
  · cases h
  · exact parseCharacter_ok h

theorem parseCharacterAndDoubleQuote_err {buf : List Nat} {p : Nat} {e : Err} {q : Nat}
    (h : parseCharacterAndDoubleQuote buf p = .err e q) : q = p := by
  unfold parseCharacterAndDoubleQuote at h
  split at h
  · cases h
  · cases h
  · cases h
  · exact parseCharacter_err h

theorem parseCharacterAndDoubleQuote_ns {buf : List Nat} {p : Nat} :
    parseCharacterAndDoubleQuote buf p ≠ .spin := by
  unfold parseCharacterAndDoubleQuote
  split
  · simp
  · simp
  · rename_i heq; exact absurd heq parseChar_ns
  · exact parseCharacter_ns

theorem parseCharacterAndDoubleQuote_np {buf : List Nat} {p : Nat} (hp : p ≤ buf.length) :
    parseCharacterAndDoubleQuote buf p ≠ .panic := by
  unfold parseCharacterAndDoubleQuote
  split
  · simp
  · rename_i heq; exact absurd heq (parseChar_np hp)
  · simp
  · exact parseCharacter_np hp

theorem ruleNameLoop_ok {buf : List Nat} {fuel : Nat} :
    ∀ {acc : List Nat} {p : Nat} {v : List Nat} {q : Nat},
      ruleNameLoop buf fuel acc p = .ok v q →
      p ≤ q ∧ (p ≤ buf.length → q ≤ buf.length) := by
  induction fuel with
  | zero => intro acc p v q h; cases h
  | succ n ih =>
    intro acc p v q h
    unfold ruleNameLoop at h
    split at h
    · rename_i b p1 heq
      have hb := parseRuleChar_ok heq
      have hr := ih h
      exact ⟨by omega, fun _ => hr.2 (by omega)⟩
    · cases h; exact ⟨le_refl _, fun hp => hp⟩
    · cases h
    · cases h

theorem ruleNameLoop_no_err {buf : List Nat} {fuel : Nat} :
    ∀ {acc : List Nat} {p : Nat} {e : Err} {q : Nat},
      ruleNameLoop buf fuel acc p ≠ .err e q := by
  induction fuel with
  | zero => intro acc p e q h; cases h
  | succ n ih =>
    intro acc p e q
    unfold ruleNameLoop
    split
    · exact ih
    · simp
    · simp
    · simp

theorem ruleNameLoop_ns {buf : List Nat} {fuel : Nat} :
    ∀ {acc : List Nat} {p : Nat}, p ≤ buf.length → buf.length < fuel + p →
      ruleNameLoop buf fuel acc p ≠ .spin := by
  induction fuel with
  | zero => intro acc p hp hf _; omega
  | succ n ih =>
    intro acc p hp hf
    unfold ruleNameLoop
    split
    · rename_i b p1 heq
      have hb := parseRuleChar_ok heq
      exact ih hb.2 (by omega)
    · simp
    · simp
    · rename_i heq; exact absurd heq parseRuleChar_ns

theorem ruleNameLoop_np {buf : List Nat} {fuel : Nat} :
    ∀ {acc : List Nat} {p : Nat}, p ≤ buf.length →
      ruleNameLoop buf fuel acc p ≠ .panic := by
  induction fuel with
  | zero => intro acc p hp; simp [ruleNameLoop]
  | succ n ih =>
    intro acc p hp
    unfold ruleNameLoop
    split
    · rename_i b p1 heq
      exact ih (parseRuleChar_ok heq).2
    · simp
    · rename_i heq; exact absurd heq (parseRuleChar_np hp)
    · simp

theorem parseRuleName_ok {buf : List Nat} {p : Nat} {v : List Nat} {q : Nat}
    (h : parseRuleName buf p = .ok v q) : p + 1 ≤ q ∧ q ≤ buf.length := by
  unfold parseRuleName at h
  split at h
  · rename_i b p1 heq
    have hb := parseLetter_ok heq
    have hr := ruleNameLoop_ok h
    exact ⟨by omega, hr.2 (by omega)⟩
  · cases h
  · cases h
  · cases h

theorem parseRuleName_err {buf : List Nat} {p : Nat} {e : Err} {q : Nat}
    (h : parseRuleName buf p = .err e q) : q = p := by
  unfold parseRuleName at h
  split at h
  · exact absurd h ruleNameLoop_no_err
  · cases h; exact parseLetter_err (by assumption)
  · cases h
  · cases h

theorem parseRuleName_ns {buf : List Nat} {p : Nat} : parseRuleName buf p ≠ .spin := by
  unfold parseRuleName
  split
  · rename_i b p1 heq
    have hb := parseLetter_ok heq
    exact ruleNameLoop_ns hb.2 (by omega)
  · simp
  · simp
  · rename_i heq; exact absurd heq parseLetter_ns

theorem parseRuleName_np {buf : List Nat} {p : Nat} (hp : p ≤ buf.length) :
    parseRuleName buf p ≠ .panic := by
  unfold parseRuleName
  split
  · rename_i b p1 heq
    exact ruleNameLoop_np (parseLetter_ok heq).2
  · simp
  · rename_i heq; exact absurd heq (parseLetter_np hp)
  · simp

theorem literalLoopDQ_ok {buf : List Nat} {fuel : Nat} :
    ∀ {acc : List Nat} {p : Nat} {v : List Nat} {q : Nat},
      literalLoopDQ buf fuel acc p = .ok v q →
      p ≤ q ∧ (p ≤ buf.length → q ≤ buf.length) := by
  induction fuel with
  | zero => intro acc p v q h; cases h
  | succ n ih =>
    intro acc p v q h
    unfold literalLoopDQ at h
    split at h
    · rename_i b p1 heq
      have hb := parseCharacterAndQuote_ok heq
      have hr := ih h
      exact ⟨by omega, fun _ => hr.2 (by omega)⟩
    · cases h; exact ⟨le_refl _, fun hp => hp⟩
    · cases h
    · cases h

theorem literalLoopDQ_no_err {buf : List Nat} {fuel : Nat} :
    ∀ {acc : List Nat} {p : Nat} {e : Err} {q : Nat},
      literalLoopDQ buf fuel acc p ≠ .err e q := by
  induction fuel with
  | zero => intro acc p e q h; cases h
  | succ n ih =>
    intro acc p e q
    unfold literalLoopDQ
    split
    · exact ih
    · simp
    · simp
    · simp

theorem literalLoopDQ_ns {buf : List Nat} {fuel : Nat} :
    ∀ {acc : List Nat} {p : Nat}, p ≤ buf.length → buf.length < fuel + p →
      literalLoopDQ buf fuel acc p ≠ .spin := by
  induction fuel with
  | zero => intro acc p hp hf _; omega
  | succ n ih =>
    intro acc p hp hf
    unfold literalLoopDQ
    split
    · rename_i b p1 heq
      have hb := parseCharacterAndQuote_ok heq
      exact ih hb.2 (by omega)
    · simp
    · simp
    · rename_i heq; exact absurd heq parseCharacterAndQuote_ns

theorem literalLoopDQ_np {buf : List Nat} {fuel : Nat} :
    ∀ {acc : List Nat} {p : Nat}, p ≤ buf.length →
      literalLoopDQ buf fuel acc p ≠ .panic := by
  induction fuel with
  | zero => intro acc p hp; simp [literalLoopDQ]
  | succ n ih =>
    intro acc p hp
    unfold literalLoopDQ
    split
    · rename_i b p1 heq
      exact ih (parseCharacterAndQuote_ok heq).2
    · simp
    · rename_i heq; exact absurd heq (parseCharacterAndQuote_np hp)
    · simp

theorem literalLoopSQ_ok {buf : List Nat} {fuel : Nat} :
    ∀ {acc : List Nat} {p : Nat} {v : List Nat} {q : Nat},
      literalLoopSQ buf fuel acc p = .ok v q →
      p ≤ q ∧ (p ≤ buf.length → q ≤ buf.length) := by
  induction fuel with
  | zero => intro acc p v q h; cases h
  | succ n ih =>
    intro acc p v q h
    unfold literalLoopSQ at h
    split at h
    · rename_i b p1 heq
      have hb := parseCharacterAndDoubleQuote_ok heq
      have hr := ih h
      exact ⟨by omega, fun _ => hr.2 (by omega)⟩
    · cases h; exact ⟨le_refl _, fun hp => hp⟩
    · cases h
    · cases h

theorem literalLoopSQ_no_err {buf : List Nat} {fuel : Nat} :
    ∀ {acc : List Nat} {p : Nat} {e : Err} {q : Nat},
      literalLoopSQ buf fuel acc p ≠ .err e q := by
  induction fuel with
  | zero => intro acc p e q h; cases h
  | succ n ih =>
    intro acc p e q
    unfold literalLoopSQ
    split
    · exact ih
    · simp
    · simp
    · simp

theorem literalLoopSQ_ns {buf : List Nat} {fuel : Nat} :
    ∀ {acc : List Nat} {p : Nat}, p ≤ buf.length → buf.length < fuel + p →
      literalLoopSQ buf fuel acc p ≠ .spin := by
  induction fuel with
  | zero => intro acc p hp hf _; omega
  | succ n ih =>
    intro acc p hp hf
    unfold literalLoopSQ
    split
    · rename_i b p1 heq
      have hb := parseCharacterAndDoubleQuote_ok heq
      exact ih hb.2 (by omega)
    · simp
    · simp
    · rename_i heq; exact absurd heq parseCharacterAndDoubleQuote_ns

theorem literalLoopSQ_np {buf : List Nat} {fuel : Nat} :
    ∀ {acc : List Nat} {p : Nat}, p ≤ buf.length →
      literalLoopSQ buf fuel acc p ≠ .panic := by
  induction fuel with
  | zero => intro acc p hp; simp [literalLoopSQ]
  | succ n ih =>
    intro acc p hp
    unfold literalLoopSQ
    split
    · rename_i b p1 heq
      exact ih (parseCharacterAndDoubleQuote_ok heq).2
    · simp
    · rename_i heq; exact absurd heq (parseCharacterAndDoubleQuote_np hp)
    · simp

theorem skipSpacesAux_ge (buf : List Nat) :
    ∀ (k p : Nat), p ≤ skipSpacesAux buf k p := by
  intro k
  induction k with
  | zero => intro p; unfold skipSpacesAux; omega
  | succ m ih =>
    intro p
    unfold skipSpacesAux
    split_ifs
    · have := ih (p + 1)
      omega
    · omega
    · omega

theorem skipSpacesAux_le (buf : List Nat) :
    ∀ (k p : Nat), p ≤ buf.length → skipSpacesAux buf k p ≤ buf.length := by
  intro k
  induction k with
  | zero => intro p h; unfold skipSpacesAux; omega
  | succ m ih =>
    intro p h
    unfold skipSpacesAux
    split_ifs with h1 h2
    · exact ih (p + 1) (by omega)
    · omega
    · omega

theorem skipSpaces_ge (buf : List Nat) (p : Nat) : p ≤ skipSpaces buf p :=
  skipSpacesAux_ge buf (buf.length - p) p

theorem skipSpaces_le (buf : List Nat) (p : Nat) (h : p ≤ buf.length) :
    skipSpaces buf p ≤ buf.length :=
  skipSpacesAux_le buf (buf.length - p) p h

theorem parseDisjunction_ok {buf : List Nat} {p : Nat} {tok : Tok} {q : Nat}
    (h : parseDisjunction buf p = .ok tok q) : q = p + 1 ∧ q ≤ buf.length := by
  unfold parseDisjunction at h
  split at h
  · cases h
  · rename_i v p1 heq; cases h; exact parseChar_ok heq
  · cases h
  · cases h

theorem parseDisjunction_err {buf : List Nat} {p : Nat} {e : Err} {q : Nat}
    (h : parseDisjunction buf p = .err e q) : q = p := by
  unfold parseDisjunction at h
  split at h
  · cases h; exact parseChar_err (by assumption)
  · cases h
  · cases h
  · cases h

theorem parseDisjunction_ns {buf : List Nat} {p : Nat} : parseDisjunction buf p ≠ .spin := by
  unfold parseDisjunction
  split
  · simp
  · simp
  · simp
  · rename_i heq; exact absurd heq parseChar_ns

theorem parseDisjunction_np {buf : List Nat} {p : Nat} (hp : p ≤ buf.length) :
    parseDisjunction buf p ≠ .panic := by
  unfold parseDisjunction
  split
  · simp
  · simp
  · rename_i heq; exact absurd heq (parseChar_np hp)
  · simp

theorem parseChar_err_le {buf : List Nat} {c p : Nat} {e : Err} {q : Nat}
    (h : parseChar buf c p = .err e q) : q ≤ buf.length := by
  unfold parseChar at h
  split_ifs at h with h1
  · cases h; omega
  · rcases hb : buf[p]? with _ | b <;> simp only [hb] at h
    · cases h
    · have hlt : p < buf.length := (List.getElem?_eq_some_iff.mp hb).1
      split_ifs at h <;> cases h
      omega

namespace Syn

theorem commentEndAux_ge (buf : List Nat) :
    ∀ (k e : Nat), e ≤ commentEndAux buf k e := by
  intro k
  induction k with
  | zero => intro e; unfold commentEndAux; omega
  | succ m ih =>
    intro e
    unfold commentEndAux
    split_ifs
    · omega
    · have := ih (e + 1)
      omega
    · omega

theorem commentEndAux_le (buf : List Nat) :
    ∀ (k e : Nat), e ≤ buf.length → commentEndAux buf k e ≤ buf.length := by
  intro k
  induction k with
  | zero => intro e h; unfold commentEndAux; omega
  | succ m ih =>
    intro e h
    unfold commentEndAux
    split_ifs with h1 h2
    · omega
    · exact ih (e + 1) (by omega)
    · omega

theorem commentEnd_ge (buf : List Nat) (e : Nat) : e ≤ commentEnd buf e :=
  commentEndAux_ge buf (buf.length - e) e

theorem commentEnd_le (buf : List Nat) (e : Nat) (h : e ≤ buf.length) :
    commentEnd buf e ≤ buf.length :=
  commentEndAux_le buf (buf.length - e) e h

theorem parseComment_ok {buf : List Nat} {p : Nat} {n : GNode} {q : Nat}
    (h : parseComment buf p = .ok n q) : p + 1 ≤ q ∧ q ≤ buf.length := by
  unfold parseComment at h
  split_ifs at h with h1
  rcases hb : buf[p]? with _ | b <;> simp only [hb] at h
  · cases h
  · have hlt : p < buf.length := (List.getElem?_eq_some_iff.mp hb).1
    split_ifs at h <;> cases h
    exact ⟨commentEnd_ge buf (p + 1), commentEnd_le buf (p + 1) (by omega)⟩

theorem parseComment_err {buf : List Nat} {p : Nat} {e : Err} {q : Nat}
    (h : parseComment buf p = .err e q) : q = p ∧ q ≤ buf.length := by
  unfold parseComment at h
  split_ifs at h with h1
  · cases h; omega
  · rcases hb : buf[p]? with _ | b <;> simp only [hb] at h
    · cases h
    · have hlt : p < buf.length := (List.getElem?_eq_some_iff.mp hb).1
      split_ifs at h <;> cases h
      omega

theorem parseComment_ns {buf : List Nat} {p : Nat} : parseComment buf p ≠ .spin := by
  unfold parseComment
  split_ifs
  · simp
  · rcases hb : buf[p]? with _ | b <;> simp only [hb]
    · simp
    · split_ifs <;> simp

theorem parseComment_np {buf : List Nat} {p : Nat} (hp : p ≤ buf.length) :
    parseComment buf p ≠ .panic := by
  unfold parseComment
  split_ifs
  · simp
  · rcases hb : buf[p]? with _ | b <;> simp only [hb]
    · rw [List.getElem?_eq_none_iff] at hb
      omega
    · split_ifs <;> simp

theorem parseDefinitionSimbol_ok {buf : List Nat} {p : Nat} {tok : Tok} {q : Nat}
    (h : parseDefinitionSimbol buf p = .ok tok q) : q = p + 3 ∧ q ≤ buf.length := by
  unfold parseDefinitionSimbol at h
  split_ifs at h with h1 h2 <;> cases h
  omega

theorem parseDefinitionSimbol_err {buf : List Nat} {p : Nat} {e : Err} {q : Nat}
    (h : parseDefinitionSimbol buf p = .err e q) : q = p := by
  unfold parseDefinitionSimbol at h
  split_ifs at h <;> cases h <;> rfl

theorem parseDefinitionSimbol_ns {buf : List Nat} {p : Nat} :
    parseDefinitionSimbol buf p ≠ .spin := by
  unfold parseDefinitionSimbol
  split_ifs <;> simp

theorem parseDefinitionSimbol_np {buf : List Nat} {p : Nat} :
    parseDefinitionSimbol buf p ≠ .panic := by
  unfold parseDefinitionSimbol
  split_ifs <;> simp

theorem parseLiteral_ok {buf : List Nat} {p : Nat} {v : List Nat} {q : Nat}
    (h : parseLiteral buf p = .ok v q) : p + 2 ≤ q ∧ q ≤ buf.length := by
  unfold parseLiteral at h
  split_ifs at h with h1
  rcases hb : buf[p]? with _ | b <;> simp only [hb] at h
  · cases h
  · split_ifs at h
    · split at h
      · rename_i v1 p1 heq1
        have hq1 := parseChar_ok heq1
        split at h
        · rename_i lit p2 heq2
          have hq2 := literalLoopDQ_ok heq2
          split at h
          · rename_i v3 p3 heq3
            have hq3 := parseChar_ok heq3
            cases h
            omega
          · cases h
          · cases h
          · cases h
        · cases h
        · cases h
        · cases h
      · cases h
      · cases h
      · cases h
    · split at h
      · rename_i v1 p1 heq1
        have hq1 := parseChar_ok heq1
        split at h
        · rename_i lit p2 heq2
          have hq2 := literalLoopSQ_ok heq2
          split at h
          · rename_i v3 p3 heq3
            have hq3 := parseChar_ok heq3
            cases h
            omega
          · cases h
          · cases h
          · cases h
        · cases h
        · cases h
        · cases h
      · cases h
      · cases h
      · cases h

theorem parseLiteral_err {buf : List Nat} {p : Nat} {e : Err} {q : Nat}
    (h : parseLiteral buf p = .err e q) : p ≤ q ∧ q ≤ buf.length := by
  unfold parseLiteral at h
  split_ifs at h with h1
  · cases h; omega
  · rcases hb : buf[p]? with _ | b <;> simp only [hb] at h
    · cases h
    · have hlt : p < buf.length := (List.getElem?_eq_some_iff.mp hb).1
      split_ifs at h
      · split at h
        · rename_i v1 p1 heq1
          have hq1 := parseChar_ok heq1
          split at h
          · rename_i lit p2 heq2
            have hq2 := literalLoopDQ_ok heq2
            split at h
            · cases h
            · rename_i e3 p3 heq3
              have hq3 := parseChar_err heq3
              have hq3l := parseChar_err_le heq3
              cases h
              omega
            · cases h
            · cases h
          · rename_i e2 p2 heq2
            exact absurd heq2 literalLoopDQ_no_err
          · cases h
          · cases h
        · rename_i e1 p1 heq1
          have hq1 := parseChar_err heq1
          cases h
          omega
        · cases h
        · cases h
      · split at h
        · rename_i v1 p1 heq1
          have hq1 := parseChar_ok heq1
          split at h
          · rename_i lit p2 heq2
            have hq2 := literalLoopSQ_ok heq2
            split at h
            · cases h
            · rename_i e3 p3 heq3
              have hq3 := parseChar_err heq3
              have hq3l := parseChar_err_le heq3
              cases h
              omega
            · cases h
            · cases h
          · rename_i e2 p2 heq2
            exact absurd heq2 literalLoopSQ_no_err
          · cases h
          · cases h
        · rename_i e1 p1 heq1
          have hq1 := parseChar_err heq1
          cases h
          omega
        · cases h
        · cases h
      · cases h; omega

theorem parseLiteral_ns {buf : List Nat} {p : Nat} : parseLiteral buf p ≠ .spin := by
  unfold parseLiteral
  split_ifs with h1
  · simp
  · rcases hb : buf[p]? with _ | b <;> simp only [hb]
    · simp
    · split_ifs
      · split
        · rename_i v1 p1 heq1
          have hq1 := parseChar_ok heq1
          split
          · split
            · simp
            · simp
            · simp
            · rename_i heq3; exact absurd heq3 parseChar_ns
          · simp
          · simp
          · rename_i heq2
            exact absurd heq2 (literalLoopDQ_ns hq1.2 (by omega))
        · simp
        · simp
        · rename_i heq1; exact absurd heq1 parseChar_ns
      · split
        · rename_i v1 p1 heq1
          have hq1 := parseChar_ok heq1
          split
          · split
            · simp
            · simp
            · simp
            · rename_i heq3; exact absurd heq3 parseChar_ns
          · simp
          · simp
          · rename_i heq2
            exact absurd heq2 (literalLoopSQ_ns hq1.2 (by omega))
        · simp
        · simp
        · rename_i heq1; exact absurd heq1 parseChar_ns
      · simp

theorem parseLiteral_np {buf : List Nat} {p : Nat} (hp : p ≤ buf.length) :
    parseLiteral buf p ≠ .panic := by
  unfold parseLiteral
  split_ifs with h1
  · simp
  · rcases hb : buf[p]? with _ | b <;> simp only [hb]
    · rw [List.getElem?_eq_none_iff] at hb
      omega
    · split_ifs
      · split
        · rename_i v1 p1 heq1
          have hq1 := parseChar_ok heq1
          split
          · rename_i lit p2 heq2
            have hq2 := literalLoopDQ_ok heq2
            split
            · simp
            · simp
            · rename_i heq3; exact absurd heq3 (parseChar_np (hq2.2 hq1.2))
            · simp
          · simp
          · rename_i heq2; exact absurd heq2 (literalLoopDQ_np hq1.2)
          · simp
        · simp
        · rename_i heq1; exact absurd heq1 (parseChar_np hp)
        · simp
      · split
        · rename_i v1 p1 heq1
          have hq1 := parseChar_ok heq1
          split
          · rename_i lit p2 heq2
            have hq2 := literalLoopSQ_ok heq2
            split
            · simp
            · simp
            · rename_i heq3; exact absurd heq3 (parseChar_np (hq2.2 hq1.2))
            · simp
          · simp
          · rename_i heq2; exact absurd heq2 (literalLoopSQ_np hq1.2)
          · simp
        · simp
        · rename_i heq1; exact absurd heq1 (parseChar_np hp)
        · simp
      · simp

theorem parseNonTerminal_ok {buf : List Nat} {p : Nat} {n : GNode} {q : Nat}
    (h : parseNonTerminal buf p = .ok n q) : p + 3 ≤ q ∧ q ≤ buf.length := by
  unfold parseNonTerminal at h
  split at h
  · cases h
  · rename_i v1 p1 heq1
    have hq1 := parseChar_ok heq1
    split at h
    · cases h
    · rename_i nm p2 heq2
      have hq2 := parseRuleName_ok heq2
      split at h
      · cases h
      · rename_i v3 p3 heq3
        have hq3 := parseChar_ok heq3
        cases h
        omega
      · cases h
      · cases h
    · cases h
    · cases h
  · cases h
  · cases h

theorem parseNonTerminal_err {buf : List Nat} {p : Nat} {e : Err} {q : Nat}
    (h : parseNonTerminal buf p = .err e q) : p ≤ q ∧ q ≤ buf.length := by
  unfold parseNonTerminal at h
  split at h
  · rename_i e1 p1 heq1
    have hq1 := parseChar_err heq1
    have hq1l := parseChar_err_le heq1
    cases h
    omega
  · rename_i v1 p1 heq1
    have hq1 := parseChar_ok heq1
    split at h
    · rename_i e2 p2 heq2
      have hq2 := parseRuleName_err heq2
      cases h
      omega
    · rename_i nm p2 heq2
      have hq2 := parseRuleName_ok heq2
      split at h
      · rename_i e3 p3 heq3
        have hq3 := parseChar_err heq3
        cases h
        omega
      · cases h
      · cases h
      · cases h
    · cases h
    · cases h
  · cases h
  · cases h

theorem parseNonTerminal_ns {buf : List Nat} {p : Nat} : parseNonTerminal buf p ≠ .spin := by
  unfold parseNonTerminal
  split
  · simp
  · split
    · simp
    · split
      · simp
      · simp
      · simp
      · rename_i heq; exact absurd heq parseChar_ns
    · simp
    · rename_i heq; exact absurd heq parseRuleName_ns
  · simp
  · rename_i heq; exact absurd heq parseChar_ns

theorem parseNonTerminal_np {buf : List Nat} {p : Nat} (hp : p ≤ buf.length) :
    parseNonTerminal buf p ≠ .panic := by
  unfold parseNonTerminal
  split
  · simp
  · rename_i v1 p1 heq1
    have hq1 := parseChar_ok heq1
    split
    · simp
    · rename_i nm p2 heq2
      have hq2 := parseRuleName_ok heq2
      split
      · simp
      · simp
      · rename_i heq; exact absurd heq (parseChar_np hq2.2)
      · simp
    · rename_i heq; exact absurd heq (parseRuleName_np hq1.2)
    · simp
  · rename_i heq; exact absurd heq (parseChar_np hp)
  · simp

theorem parseAtom_ok {buf : List Nat} {p : Nat} {n : GNode} {q : Nat}
    (h : parseAtom buf p = .ok n q) : p + 1 ≤ q ∧ q ≤ buf.length := by
  unfold parseAtom at h
  split at h
  · rename_i lit p1 heq
    have hq := parseLiteral_ok heq
    cases h
    omega
  · rename_i e1 p1 heq
    have hq := parseLiteral_err heq
    have hr := parseNonTerminal_ok h
    omega
  · cases h
  · cases h

theorem parseAtom_err {buf : List Nat} {p : Nat} {e : Err} {q : Nat}
    (h : parseAtom buf p = .err e q) : p ≤ q ∧ q ≤ buf.length := by
  unfold parseAtom at h
  split at h
  · cases h
  · rename_i e1 p1 heq
    have hq := parseLiteral_err heq
    have hr := parseNonTerminal_err h
    omega
  · cases h
  · cases h

theorem parseAtom_ns {buf : List Nat} {p : Nat} : parseAtom buf p ≠ .spin := by
  unfold parseAtom
  split
  · simp
  · exact parseNonTerminal_ns
  · simp
  · rename_i heq; exact absurd heq parseLiteral_ns

theorem parseAtom_np {buf : List Nat} {p : Nat} (hp : p ≤ buf.length) :
    parseAtom buf p ≠ .panic := by
  unfold parseAtom
  split
  · simp
  · rename_i e1 p1 heq
    exact parseNonTerminal_np (parseLiteral_err heq).2
  · rename_i heq; exact absurd heq (parseLiteral_np hp)
  · simp

theorem ruleStep_ok {buf : List Nat} {p : Nat} {v : Option GNode} {q : Nat}
    (h : ruleStep buf p = .ok v q) : p + 1 ≤ q := by
  unfold ruleStep at h
  split at h
  · rename_i tok q1 heq
    have hq := parseDisjunction_ok heq
    cases h
    omega
  · rename_i e1 q1 heq1
    have hq1 := parseDisjunction_err heq1
    split at h
    · rename_i tok q2 heq2
      have hq2 := parseDefinitionSimbol_ok heq2
      cases h
      omega
    · rename_i e2 q2 heq2
      have hq2 := parseDefinitionSimbol_err heq2
      split at h
      · rename_i node q3 heq3
        have hq3 := parseAtom_ok heq3
        cases h
        omega
      · rename_i e3 q3 heq3
        have hq3 := parseAtom_err heq3
        split at h
        · rename_i node q4 heq4
          have hq4 := parseComment_ok heq4
          cases h
          omega
        · rename_i e4 q4 heq4
          have hq4 := parseComment_err heq4
          cases h
          omega
        · cases h
        · cases h
      · cases h
      · cases h
    · cases h
    · cases h
  · cases h
  · cases h

theorem ruleStep_no_err {buf : List Nat} {p : Nat} {e : Err} {q : Nat} :
    ruleStep buf p ≠ .err e q := by
  unfold ruleStep
  split
  · simp
  · split
    · simp
    · split
      · simp
      · split
        · simp
        · simp
        · simp
        · simp
      · simp
      · simp
    · simp
    · simp
  · simp
  · simp

theorem ruleStep_ns {buf : List Nat} {p : Nat} : ruleStep buf p ≠ .spin := by
  unfold ruleStep
  split
  · simp
  · split
    · simp
    · split
      · simp
      · split
        · simp
        · simp
        · simp
        · rename_i heq; exact absurd heq parseComment_ns
      · simp
      · rename_i heq; exact absurd heq parseAtom_ns
    · simp
    · rename_i heq; exact absurd heq parseDefinitionSimbol_ns
  · simp
  · rename_i heq; exact absurd heq parseDisjunction_ns

theorem ruleStep_np {buf : List Nat} {p : Nat} (hp : p ≤ buf.length) :
    ruleStep buf p ≠ .panic := by
  unfold ruleStep
  split
  · simp
  · rename_i e1 q1 heq1
    have hq1 := parseDisjunction_err heq1
    split
    · simp
    · rename_i e2 q2 heq2
      have hq2 := parseDefinitionSimbol_err heq2
      split
      · simp
      · rename_i e3 q3 heq3
        have hq3 := parseAtom_err heq3
        split
        · simp
        · simp
        · rename_i heq; exact absurd heq (parseComment_np hq3.2)
        · simp
      · rename_i heq
        exact absurd heq (parseAtom_np (by omega))
      · simp
    · rename_i heq; exact absurd heq parseDefinitionSimbol_np
    · simp
  · rename_i heq; exact absurd heq (parseDisjunction_np hp)
  · simp

end Syn

/-- A result that cannot panic, spin or err is a success. -/
theorem res_total {α : Type} {r : Res α} (hnp : r ≠ .panic) (hns : r ≠ .spin)
    (hne : ∀ e q, r ≠ .err e q) : ∃ v q, r = .ok v q := by
  rcases r with _ | _ | ⟨v, q⟩ | ⟨e, q⟩
  · exact absurd rfl hnp
  · exact absurd rfl hns
  · exact ⟨v, q, rfl⟩
  · exact absurd rfl (hne e q)

namespace Syn

theorem ruleLoop_no_err {buf : List Nat} {fuel : Nat} :
    ∀ {toks : List GNode} {p : Nat} {e : Err} {q : Nat},
      ruleLoop buf fuel toks p ≠ .err e q := by
  induction fuel with
  | zero => intro toks p e q h; cases h
  | succ n ih =>
    intro toks p e q
    unfold ruleLoop
    split
    · split
      · exact ih
      · exact ih
      · rename_i heq; exact absurd heq ruleStep_no_err
      · simp
      · simp
    · simp

theorem ruleLoop_ns {buf : List Nat} {fuel : Nat} :
    ∀ {toks : List GNode} {p : Nat}, buf.length - p + 1 ≤ fuel →
      ruleLoop buf fuel toks p ≠ .spin := by
  induction fuel with
  | zero => intro toks p hf; omega
  | succ n ih =>
    intro toks p hf
    unfold ruleLoop
    split
    · rename_i hlt
      split
      · rename_i p1 heq
        have hq := ruleStep_ok heq
        exact ih (by omega)
      · rename_i tok p1 heq
        have hq := ruleStep_ok heq
        exact ih (by omega)
      · rename_i heq; exact absurd heq ruleStep_no_err
      · simp
      · rename_i heq; exact absurd heq ruleStep_ns
    · simp

theorem ruleLoop_np {buf : List Nat} {fuel : Nat} :
    ∀ {toks : List GNode} {p : Nat}, ruleLoop buf fuel toks p ≠ .panic := by
  induction fuel with
  | zero => intro toks p h; cases h
  | succ n ih =>
    intro toks p
    unfold ruleLoop
    split
    · rename_i hlt
      split
      · exact ih
      · exact ih
      · rename_i heq; exact absurd heq ruleStep_no_err
      · rename_i heq; exact absurd heq (ruleStep_np (by omega))
      · simp
    · simp

/-- The token loop of `SyntacticParser.parseRule` always returns a token
list with a nil error: the permissive tokenizer cannot fail on any line
content. -/
theorem parseRule_total (buf : List Nat) (p : Nat) :
    ∃ toks q, parseRule buf p = .ok toks q := by
  refine res_total ruleLoop_np (ruleLoop_ns ?_) (fun e q => ruleLoop_no_err)
  omega

theorem parseLines_no_err {lines : List (List Nat)} :
    ∀ {pos : Nat} {e : Err} {q : Nat}, parseLines lines pos ≠ .err e q := by
  induction lines with
  | nil => intro pos e q h; cases h
  | cons line rest ih =>
    intro pos e q
    unfold parseLines
    split
    · split
      · simp
      · rename_i heq; exact absurd heq ih
      · simp
      · simp
    · exact ih
    · simp
    · simp

theorem parseLines_ns {lines : List (List Nat)} :
    ∀ {pos : Nat}, parseLines lines pos ≠ .spin := by
  induction lines with
  | nil => intro pos h; cases h
  | cons line rest ih =>
    intro pos
    unfold parseLines
    split
    · split
      · simp
      · simp
      · simp
      · rename_i heq; exact absurd heq ih
    · exact ih
    · simp
    · rename_i heq; exact absurd heq (ruleLoop_ns (by omega))

theorem parseLines_np {lines : List (List Nat)} :
    ∀ {pos : Nat}, parseLines lines pos ≠ .panic := by
  induction lines with
  | nil => intro pos h; cases h
  | cons line rest ih =>
    intro pos
    unfold parseLines
    split
    · split
      · simp
      · simp
      · rename_i heq; exact absurd heq ih
      · simp
    · exact ih
    · rename_i heq; exact absurd heq ruleLoop_np
    · simp

/-- Whenever no line of the source reaches the scanner's token-size
limit, the syntactic fallback returns a degraded-mode AST with a nil
saved error and no semantic rules. -/
theorem Parse_ok (source : List Nat) (htl : tooLong source = false) :
    ∃ lemmes, Parse source = .ok ⟨none, lemmes, [], false⟩ := by
  unfold Parse
  split
  · rename_i lemmes pos heq
    refine ⟨lemmes, ?_⟩
    rw [htl]
    simp
  · rename_i e q heq
    exact absurd heq parseLines_no_err
  · rename_i heq
    exact absurd heq parseLines_np
  · rename_i heq
    exact absurd heq parseLines_ns

/-- The syntactic entry point never faults. -/
theorem synParse_np (source : List Nat) : Parse source ≠ .panic := by
  unfold Parse
  split
  · split_ifs <;> simp
  · simp
  · rename_i heq
    exact absurd heq parseLines_np
  · simp

/-- The syntactic entry point never exhausts its fuel. -/
theorem synParse_ns (source : List Nat) : Parse source ≠ .spin := by
  unfold Parse
  split
  · split_ifs <;> simp
  · simp
  · simp
  · rename_i heq
    exact absurd heq parseLines_ns

end Syn

namespace Sem

theorem sem_parseDefinitionSimbol_ok {buf : List Nat} {p : Nat} {tok : Tok} {q : Nat}
    (h : parseDefinitionSimbol buf p = .ok tok q) : q = p + 3 ∧ q ≤ buf.length := by
  unfold parseDefinitionSimbol at h
  split_ifs at h with h1
  cases h
  refine ⟨rfl, ?_⟩
  simp only [List.cons.injEq, and_true] at h1
  obtain ⟨h1a, h1b, h1c⟩ := h1
  by_contra hlen
  rw [List.getD_eq_default _ _ (by omega)] at h1c
  omega

theorem sem_parseDefinitionSimbol_err {buf : List Nat} {p : Nat} {e : Err} {q : Nat}
    (h : parseDefinitionSimbol buf p = .err e q) : q = p := by
  unfold parseDefinitionSimbol at h
  split_ifs at h <;> cases h
  rfl

theorem sem_parseDefinitionSimbol_ns {buf : List Nat} {p : Nat} :
    parseDefinitionSimbol buf p ≠ .spin := by
  unfold parseDefinitionSimbol
  split_ifs <;> simp

theorem sem_parseDefinitionSimbol_np {buf : List Nat} {p : Nat} :
    parseDefinitionSimbol buf p ≠ .panic := by
  unfold parseDefinitionSimbol
  split_ifs <;> simp

theorem sem_parseLiteral_ok {buf : List Nat} {p : Nat} {v : List Nat} {q : Nat}
    (h : parseLiteral buf p = .ok v q) : p + 2 ≤ q ∧ q ≤ buf.length := by
  unfold parseLiteral at h
  split_ifs at h with h1
  rcases hb : buf[p]? with _ | b <;> simp only [hb] at h
  · cases h
  · split_ifs at h
    · split at h
      · rename_i v1 p1 heq1
        have hq1 := parseChar_ok heq1
        split at h
        · rename_i lit p2 heq2
          have hq2 := literalLoopDQ_ok heq2
          split at h
          · rename_i v3 p3 heq3
            have hq3 := parseChar_ok heq3
            cases h
            omega
          · cases h
          · cases h
          · cases h
        · cases h
        · cases h
        · cases h
      · cases h
      · cases h
      · cases h
    · split at h
      · rename_i v1 p1 heq1
        have hq1 := parseChar_ok heq1
        split at h
        · rename_i lit p2 heq2
          have hq2 := literalLoopSQ_ok heq2
          split at h
          · rename_i v3 p3 heq3
            have hq3 := parseChar_ok heq3
            cases h
            omega
          · cases h
          · cases h
          · cases h
        · cases h
        · cases h
        · cases h
      · cases h
      · cases h
      · cases h

theorem sem_parseLiteral_err {buf : List Nat} {p : Nat} {e : Err} {q : Nat}
    (h : parseLiteral buf p = .err e q) : p ≤ q ∧ q ≤ buf.length := by
  unfold parseLiteral at h
  split_ifs at h with h1
  · cases h; omega
  · rcases hb : buf[p]? with _ | b <;> simp only [hb] at h
    · cases h
    · have hlt : p < buf.length := (List.getElem?_eq_some_iff.mp hb).1
      split_ifs at h
      · split at h
        · rename_i v1 p1 heq1
          have hq1 := parseChar_ok heq1
          split at h
          · rename_i lit p2 heq2
            have hq2 := literalLoopDQ_ok heq2
            split at h
            · cases h
            · rename_i e3 p3 heq3
              have hq3 := parseChar_err heq3
              have hq3l := parseChar_err_le heq3
              cases h
              omega
            · cases h
            · cases h
          · rename_i e2 p2 heq2
            exact absurd heq2 literalLoopDQ_no_err
          · cases h
          · cases h
        · rename_i e1 p1 heq1
          have hq1 := parseChar_err heq1
          cases h
          omega
        · cases h
        · cases h
      · split at h
        · rename_i v1 p1 heq1
          have hq1 := parseChar_ok heq1
          split at h
          · rename_i lit p2 heq2
            have hq2 := literalLoopSQ_ok heq2
            split at h
            · cases h
            · rename_i e3 p3 heq3
              have hq3 := parseChar_err heq3
              have hq3l := parseChar_err_le heq3
              cases h
              omega
            · cases h
            · cases h
          · rename_i e2 p2 heq2
            exact absurd heq2 literalLoopSQ_no_err
          · cases h
          · cases h
        · rename_i e1 p1 heq1
          have hq1 := parseChar_err heq1
          cases h
          omega
        · cases h
        · cases h
      · cases h; omega

theorem sem_parseLiteral_ns {buf : List Nat} {p : Nat} : parseLiteral buf p ≠ .spin := by
  unfold parseLiteral
  split_ifs with h1
  · simp
  · rcases hb : buf[p]? with _ | b <;> simp only [hb]
    · simp
    · split_ifs
      · split
        · rename_i v1 p1 heq1
          have hq1 := parseChar_ok heq1
          split
          · split
            · simp
            · simp
            · simp
            · rename_i heq3; exact absurd heq3 parseChar_ns
          · simp
          · simp
          · rename_i heq2
            exact absurd heq2 (literalLoopDQ_ns hq1.2 (by omega))
        · simp
        · simp
        · rename_i heq1; exact absurd heq1 parseChar_ns
      · split
        · rename_i v1 p1 heq1
          have hq1 := parseChar_ok heq1
          split
          · split
            · simp
            · simp
            · simp
            · rename_i heq3; exact absurd heq3 parseChar_ns
          · simp
          · simp
          · rename_i heq2
            exact absurd heq2 (literalLoopSQ_ns hq1.2 (by omega))
        · simp
        · simp
        · rename_i heq1; exact absurd heq1 parseChar_ns
      · simp

theorem sem_parseLiteral_np {buf : List Nat} {p : Nat} (hp : p ≤ buf.length) :
    parseLiteral buf p ≠ .panic := by
  unfold parseLiteral
  split_ifs with h1
  · simp
  · rcases hb : buf[p]? with _ | b <;> simp only [hb]
    · rw [List.getElem?_eq_none_iff] at hb
      omega
    · split_ifs
      · split
        · rename_i v1 p1 heq1
          have hq1 := parseChar_ok heq1
          split
          · rename_i lit p2 heq2
            have hq2 := literalLoopDQ_ok heq2
            split
            · simp
            · simp
            · rename_i heq3; exact absurd heq3 (parseChar_np (hq2.2 hq1.2))
            · simp
          · simp
          · rename_i heq2; exact absurd heq2 (literalLoopDQ_np hq1.2)
          · simp
        · simp
        · rename_i heq1; exact absurd heq1 (parseChar_np hp)
        · simp
      · split
        · rename_i v1 p1 heq1
          have hq1 := parseChar_ok heq1
          split
          · rename_i lit p2 heq2
            have hq2 := literalLoopSQ_ok heq2
            split
            · simp
            · simp
            · rename_i heq3; exact absurd heq3 (parseChar_np (hq2.2 hq1.2))
            · simp
          · simp
          · rename_i heq2; exact absurd heq2 (literalLoopSQ_np hq1.2)
          · simp
        · simp
        · rename_i heq1; exact absurd heq1 (parseChar_np hp)
        · simp
      · simp

theorem sem_parseNonTerminal_ok {buf : List Nat} {p : Nat} {n : GNode} {q : Nat}
    (h : parseNonTerminal buf p = .ok n q) : p + 3 ≤ q ∧ q ≤ buf.length := by
  unfold parseNonTerminal at h
  split at h
  · cases h
  · rename_i v1 p1 heq1
    have hq1 := parseChar_ok heq1
    split at h
    · cases h
    · rename_i nm p2 heq2
      have hq2 := parseRuleName_ok heq2
      split at h
      · cases h
      · rename_i v3 p3 heq3
        have hq3 := parseChar_ok heq3
        cases h
        omega
      · cases h
      · cases h
    · cases h
    · cases h
  · cases h
  · cases h

theorem sem_parseNonTerminal_err {buf : List Nat} {p : Nat} {e : Err} {q : Nat}
    (h : parseNonTerminal buf p = .err e q) : p ≤ q ∧ q ≤ buf.length := by
  unfold parseNonTerminal at h
  split at h
  · rename_i e1 p1 heq1
    have hq1 := parseChar_err heq1
    have hq1l := parseChar_err_le heq1
    cases h
    omega
  · rename_i v1 p1 heq1
    have hq1 := parseChar_ok heq1
    split at h
    · rename_i e2 p2 heq2
      have hq2 := parseRuleName_err heq2
      cases h
      omega
    · rename_i nm p2 heq2
      have hq2 := parseRuleName_ok heq2
      split at h
      · rename_i e3 p3 heq3
        have hq3 := parseChar_err heq3
        cases h
        omega
      · cases h
      · cases h
      · cases h
    · cases h
    · cases h
  · cases h
  · cases h

theorem sem_parseNonTerminal_ns {buf : List Nat} {p : Nat} : parseNonTerminal buf p ≠ .spin := by
  unfold parseNonTerminal
  split
  · simp
  · split
    · simp
    · split
      · simp
      · simp
      · simp
      · rename_i heq; exact absurd heq parseChar_ns
    · simp
    · rename_i heq; exact absurd heq parseRuleName_ns
  · simp
  · rename_i heq; exact absurd heq parseChar_ns

theorem sem_parseNonTerminal_np {buf : List Nat} {p : Nat} (hp : p ≤ buf.length) :
    parseNonTerminal buf p ≠ .panic := by
  unfold parseNonTerminal
  split
  · simp
  · rename_i v1 p1 heq1
    have hq1 := parseChar_ok heq1
    split
    · simp
    · rename_i nm p2 heq2
      have hq2 := parseRuleName_ok heq2
      split
      · simp
      · simp
      · rename_i heq; exact absurd heq (parseChar_np hq2.2)
      · simp
    · rename_i heq; exact absurd heq (parseRuleName_np hq1.2)
    · simp
  · rename_i heq; exact absurd heq (parseChar_np hp)
  · simp

theorem parseTerm_ok {buf : List Nat} {p : Nat} {n : GNode} {q : Nat}
    (h : parseTerm buf p = .ok n q) : p + 1 ≤ q ∧ q ≤ buf.length := by
  unfold parseTerm at h
  split at h
  · rename_i lit p1 heq
    have hq := sem_parseLiteral_ok heq
    cases h
    omega
  · rename_i e1 p1 heq
    have hq := sem_parseLiteral_err heq
    split at h
    · rename_i n2 p2 heq2
      have hr := sem_parseNonTerminal_ok heq2
      cases h
      omega
    · cases h
    · cases h
    · cases h
  · cases h
  · cases h

theorem parseTerm_err {buf : List Nat} {p : Nat} {e : Err} {q : Nat}
    (h : parseTerm buf p = .err e q) : p ≤ q ∧ q ≤ buf.length := by
  unfold parseTerm at h
  split at h
  · cases h
  · rename_i e1 p1 heq
    have hq := sem_parseLiteral_err heq
    split at h
    · cases h
    · rename_i e2 p2 heq2
      have hr := sem_parseNonTerminal_err heq2
      cases h
      omega
    · cases h
    · cases h
  · cases h
  · cases h

theorem parseTerm_ns {buf : List Nat} {p : Nat} : parseTerm buf p ≠ .spin := by
  unfold parseTerm
  split
  · simp
  · split
    · simp
    · simp
    · simp
    · rename_i heq; exact absurd heq sem_parseNonTerminal_ns
  · simp
  · rename_i heq; exact absurd heq sem_parseLiteral_ns

theorem parseTerm_np {buf : List Nat} {p : Nat} (hp : p ≤ buf.length) :
    parseTerm buf p ≠ .panic := by
  unfold parseTerm
  split
  · simp
  · rename_i e1 p1 heq
    have hq := sem_parseLiteral_err heq
    split
    · simp
    · simp
    · rename_i heq2; exact absurd heq2 (sem_parseNonTerminal_np hq.2)
    · simp
  · rename_i heq; exact absurd heq (sem_parseLiteral_np hp)
  · simp

theorem listToNode_cons {t : GNode} {rest : List GNode} :
    ∃ n, listToNode (t :: rest) = some n := by
  induction rest generalizing t with
  | nil => exact ⟨t, rfl⟩
  | cons u rest ih =>
    rcases @ih u with ⟨m, hm⟩
    unfold listToNode
    rcases rest with _ | ⟨w, ws⟩
    · exact ⟨_, rfl⟩
    · rw [hm]
      exact ⟨_, rfl⟩

theorem listLoop_ok {buf : List Nat} {fuel : Nat} :
    ∀ {terms : List GNode} {p : Nat} {v : List GNode} {q : Nat},
      listLoop buf fuel terms p = .ok v q →
      p ≤ q ∧ (p ≤ buf.length → q ≤ buf.length) ∧ ∃ extra, v = terms ++ extra := by
  induction fuel with
  | zero => intro terms p v q h; cases h
  | succ n ih =>
    intro terms p v q h
    unfold listLoop at h
    split at h
    · rename_i u p0 heqw
      unfold parseOptWhitespace at heqw
      cases heqw
      split at h
      · rename_i t p2 heq
        have ht := parseTerm_ok heq
        have hs := skipSpaces_ge buf p
        rcases ih h with ⟨h1, h2, extra, hv⟩
        exact ⟨by omega, fun _ => h2 (by omega), [t] ++ extra, by simp [hv]⟩
      · cases h
        exact ⟨le_refl _, fun hp => hp, [], by simp⟩
      · cases h
      · cases h
    · rename_i heqw
      unfold parseOptWhitespace at heqw
      cases heqw
    · rename_i heqw
      unfold parseOptWhitespace at heqw
      cases heqw
    · rename_i heqw
      unfold parseOptWhitespace at heqw
      cases heqw

theorem listLoop_no_err {buf : List Nat} {fuel : Nat} :
    ∀ {terms : List GNode} {p : Nat} {e : Err} {q : Nat},
      listLoop buf fuel terms p ≠ .err e q := by
  induction fuel with
  | zero => intro terms p e q h; cases h
  | succ n ih =>
    intro terms p e q
    unfold listLoop
    split
    · split
      · exact ih
      · simp
      · simp
      · simp
    · simp
    · simp
    · simp

theorem listLoop_ns {buf : List Nat} {fuel : Nat} :
    ∀ {terms : List GNode} {p : Nat}, p ≤ buf.length → buf.length < fuel + p →
      listLoop buf fuel terms p ≠ .spin := by
  induction fuel with
  | zero => intro terms p hp hf _; omega
  | succ n ih =>
    intro terms p hp hf
    unfold listLoop
    split
    · rename_i u p0 heqw
      unfold parseOptWhitespace at heqw
      cases heqw
      split
      · rename_i t p2 heq
        have ht := parseTerm_ok heq
        have hs := skipSpaces_ge buf p
        exact ih ht.2 (by omega)
      · simp
      · simp
      · rename_i heq; exact absurd heq parseTerm_ns
    · simp
    · simp
    · rename_i heqw
      unfold parseOptWhitespace at heqw
      cases heqw

theorem listLoop_np {buf : List Nat} {fuel : Nat} :
    ∀ {terms : List GNode} {p : Nat}, p ≤ buf.length →
      listLoop buf fuel terms p ≠ .panic := by
  induction fuel with
  | zero => intro terms p hp h; cases h
  | succ n ih =>
    intro terms p hp
    unfold listLoop
    split
    · rename_i u p0 heqw
      unfold parseOptWhitespace at heqw
      cases heqw
      split
      · rename_i t p2 heq
        exact ih (parseTerm_ok heq).2
      · simp
      · rename_i heq
        exact absurd heq (parseTerm_np (skipSpaces_le buf p hp))
      · simp
    · simp
    · rename_i heqw
      unfold parseOptWhitespace at heqw
      cases heqw
    · simp

theorem parseList_ok {buf : List Nat} {p : Nat} {n : GNode} {q : Nat}
    (h : parseList buf p = .ok n q) : p + 1 ≤ q ∧ q ≤ buf.length := by
  unfold parseList at h
  split at h
  · cases h
  · rename_i t p1 heq
    have ht := parseTerm_ok heq
    split at h
    · rename_i terms p2 heq2
      rcases listLoop_ok heq2 with ⟨h1, h2, extra, hv⟩
      split at h
      · cases h
        exact ⟨by omega, h2 ht.2⟩
      · cases h
    · cases h
    · cases h
    · cases h
  · cases h
  · cases h

theorem parseList_err {buf : List Nat} {p : Nat} {e : Err} {q : Nat}
    (h : parseList buf p = .err e q) : p ≤ q ∧ q ≤ buf.length := by
  unfold parseList at h
  split at h
  · rename_i e1 p1 heq
    have ht := parseTerm_err heq
    cases h
    omega
  · rename_i t p1 heq
    split at h
    · split at h
      · cases h
      · cases h
    · rename_i e2 p2 heq2
      exact absurd heq2 listLoop_no_err
    · cases h
    · cases h
  · cases h
  · cases h

theorem parseList_ns {buf : List Nat} {p : Nat} : parseList buf p ≠ .spin := by
  unfold parseList
  split
  · simp
  · rename_i t p1 heq
    have ht := parseTerm_ok heq
    split
    · split
      · simp
      · simp
    · simp
    · simp
    · rename_i heq2
      exact absurd heq2 (listLoop_ns ht.2 (by omega))
  · simp
  · rename_i heq; exact absurd heq parseTerm_ns

theorem parseList_np {buf : List Nat} {p : Nat} (hp : p ≤ buf.length) :
    parseList buf p ≠ .panic := by
  unfold parseList
  split
  · simp
  · rename_i t p1 heq
    have ht := parseTerm_ok heq
    split
    · rename_i terms p2 heq2
      rcases listLoop_ok heq2 with ⟨h1, h2, extra, hv⟩
      split
      · simp
      · rename_i hnone
        rcases hv with rfl
        rcases @listToNode_cons t extra with ⟨m, hm⟩
        rw [List.singleton_append, hm] at hnone
        cases hnone
    · simp
    · rename_i heq2; exact absurd heq2 (listLoop_np ht.2)
    · simp
  · rename_i heq; exact absurd heq (parseTerm_np hp)
  · simp

theorem parseExpressionF_ok {buf : List Nat} {fuel : Nat} :
    ∀ {p : Nat} {n : GNode} {q : Nat},
      parseExpressionF buf fuel p = .ok n q → p + 1 ≤ q ∧ q ≤ buf.length := by
  induction fuel with
  | zero => intro p n q h; cases h
  | succ k ih =>
    intro p n q h
    unfold parseExpressionF at h
    split at h
    · cases h
    · rename_i head p1 heqL
      have hL := parseList_ok heqL
      split at h
      · rename_i u p2 heqw
        unfold parseOptWhitespace at heqw
        cases heqw
        split at h
        · cases h; omega
        · rename_i tok p3 heqD
          have hD := parseDisjunction_ok heqD
          have hs1 := skipSpaces_ge buf p1
          split at h
          · rename_i u2 p4 heqw2
            unfold parseOptWhitespace at heqw2
            cases heqw2
            have hs2 := skipSpaces_ge buf p3
            split at h
            · cases h; omega
            · rename_i tail p5 heqR
              have hR := ih heqR
              cases h
              omega
            · cases h
            · cases h
          · cases h; omega
          · cases h
          · cases h
        · cases h
        · cases h
      · rename_i heqw
        unfold parseOptWhitespace at heqw
        cases heqw
      · rename_i heqw
        unfold parseOptWhitespace at heqw
        cases heqw
      · rename_i heqw
        unfold parseOptWhitespace at heqw
        cases heqw
    · cases h
    · cases h

theorem parseExpressionF_err {buf : List Nat} {fuel : Nat} :
    ∀ {p : Nat} {e : Err} {q : Nat},
      parseExpressionF buf fuel p = .err e q → p ≤ q ∧ q ≤ buf.length := by
  induction fuel with
  | zero => intro p e q h; cases h
  | succ k ih =>
    intro p e q h
    unfold parseExpressionF at h
    split at h
    · rename_i e1 p1 heqL
      have hL := parseList_err heqL
      cases h
      omega
    · rename_i head p1 heqL
      split at h
      · rename_i u p2 heqw
        unfold parseOptWhitespace at heqw
        cases heqw
        split at h
        · cases h
        · split at h
          · rename_i u2 p4 heqw2
            unfold parseOptWhitespace at heqw2
            cases heqw2
            split at h
            · cases h
            · cases h
            · cases h
            · cases h
          · cases h
          · cases h
          · cases h
        · cases h
        · cases h
      · rename_i heqw
        unfold parseOptWhitespace at heqw
        cases heqw
      · rename_i heqw
        unfold parseOptWhitespace at heqw
        cases heqw
      · rename_i heqw
        unfold parseOptWhitespace at heqw
        cases heqw
    · cases h
    · cases h

theorem parseExpressionF_ns {buf : List Nat} {fuel : Nat} :
    ∀ {p : Nat}, p ≤ buf.length → buf.length < fuel + p →
      parseExpressionF buf fuel p ≠ .spin := by
  induction fuel with
  | zero => intro p hp hf _; omega
  | succ k ih =>
    intro p hp hf
    unfold parseExpressionF
    split
    · simp
    · rename_i head p1 heqL
      have hL := parseList_ok heqL
      split
      · rename_i u p2 heqw
        unfold parseOptWhitespace at heqw
        cases heqw
        have hs1 := skipSpaces_ge buf p1
        have hs1l := skipSpaces_le buf p1 hL.2
        split
        · simp
        · rename_i tok p3 heqD
          have hD := parseDisjunction_ok heqD
          split
          · rename_i u2 p4 heqw2
            unfold parseOptWhitespace at heqw2
            cases heqw2
            have hs2 := skipSpaces_ge buf p3
            have hs2l := skipSpaces_le buf p3 hD.2
            split
            · simp
            · simp
            · simp
            · rename_i heqR
              exact absurd heqR (ih hs2l (by omega))
          · simp
          · simp
          · rename_i heqw2
            unfold parseOptWhitespace at heqw2
            cases heqw2
        · simp
        · rename_i heqD; exact absurd heqD parseDisjunction_ns
      · rename_i heqw
        unfold parseOptWhitespace at heqw
        cases heqw
      · rename_i heqw
        unfold parseOptWhitespace at heqw
        cases heqw
      · rename_i heqw
        unfold parseOptWhitespace at heqw
        cases heqw
    · simp
    · rename_i heqL; exact absurd heqL parseList_ns

theorem parseExpressionF_np {buf : List Nat} {fuel : Nat} :
    ∀ {p : Nat}, p ≤ buf.length → parseExpressionF buf fuel p ≠ .panic := by
  induction fuel with
  | zero => intro p hp h; cases h
  | succ k ih =>
    intro p hp
    unfold parseExpressionF
    split
    · simp
    · rename_i head p1 heqL
      have hL := parseList_ok heqL
      split
      · rename_i u p2 heqw
        unfold parseOptWhitespace at heqw
        cases heqw
        have hs1l := skipSpaces_le buf p1 hL.2
        split
        · simp
        · rename_i tok p3 heqD
          have hD := parseDisjunction_ok heqD
          split
          · rename_i u2 p4 heqw2
            unfold parseOptWhitespace at heqw2
            cases heqw2
            have hs2l := skipSpaces_le buf p3 hD.2
            split
            · simp
            · simp
            · rename_i heqR; exact absurd heqR (ih hs2l)
            · simp
          · simp
          · rename_i heqw2
            unfold parseOptWhitespace at heqw2
            cases heqw2
          · simp
        · rename_i heqD; exact absurd heqD (parseDisjunction_np hs1l)
        · simp
      · rename_i heqw
        unfold parseOptWhitespace at heqw
        cases heqw
      · rename_i heqw
        unfold parseOptWhitespace at heqw
        cases heqw
      · rename_i heqw
        unfold parseOptWhitespace at heqw
        cases heqw
    · rename_i heqL; exact absurd heqL (parseList_np hp)
    · simp

theorem parseLineEndF_ok {buf : List Nat} {fuel : Nat} :
    ∀ {p : Nat} {u : Unit} {q : Nat},
      parseLineEndF buf fuel p = .ok u q → p ≤ q ∧ q ≤ buf.length := by
  induction fuel with
  | zero => intro p u q h; cases h
  | succ k ih =>
    intro p u q h
    unfold parseLineEndF at h
    split at h
    · rename_i u1 p1 heqw
      unfold parseOptWhitespace at heqw
      cases heqw
      have hs := skipSpaces_ge buf p
      split at h
      · cases h
      · rename_i v p2 heqE
        have hE := parseChar_ok heqE
        split at h
        · cases h; omega
        · rename_i tail p3 heqR
          have hR := ih heqR
          cases h
          omega
        · cases h
        · cases h
      · cases h
      · cases h
    · rename_i heqw
      unfold parseOptWhitespace at heqw
      cases heqw
    · rename_i heqw
      unfold parseOptWhitespace at heqw
      cases heqw
    · rename_i heqw
      unfold parseOptWhitespace at heqw
      cases heqw

theorem parseLineEndF_err {buf : List Nat} {fuel : Nat} :
    ∀ {p : Nat} {e : Err} {q : Nat},
      parseLineEndF buf fuel p = .err e q →
      p ≤ q ∧ (p ≤ buf.length → q ≤ buf.length) := by
  induction fuel with
  | zero => intro p e q h; cases h
  | succ k ih =>
    intro p e q h
    unfold parseLineEndF at h
    split at h
    · rename_i u1 p1 heqw
      unfold parseOptWhitespace at heqw
      cases heqw
      have hs := skipSpaces_ge buf p
      split at h
      · rename_i e2 p2 heqE
        have hE := parseChar_err heqE
        cases h
        exact ⟨by omega, fun hp => by
          have := skipSpaces_le buf p hp
          omega⟩
      · split at h
        · cases h
        · cases h
        · cases h
        · cases h
      · cases h
      · cases h
    · rename_i heqw
      unfold parseOptWhitespace at heqw
      cases heqw
    · rename_i heqw
      unfold parseOptWhitespace at heqw
      cases heqw
    · rename_i heqw
      unfold parseOptWhitespace at heqw
      cases heqw

theorem parseLineEndF_ns {buf : List Nat} {fuel : Nat} :
    ∀ {p : Nat}, p ≤ buf.length → buf.length < fuel + p →
      parseLineEndF buf fuel p ≠ .spin := by
  induction fuel with
  | zero => intro p hp hf _; omega
  | succ k ih =>
    intro p hp hf
    unfold parseLineEndF
    split
    · rename_i u1 p1 heqw
      unfold parseOptWhitespace at heqw
      cases heqw
      have hs := skipSpaces_ge buf p
      have hsl := skipSpaces_le buf p hp
      split
      · simp
      · rename_i v p2 heqE
        have hE := parseChar_ok heqE
        split
        · simp
        · simp
        · simp
        · rename_i heqR
          exact absurd heqR (ih hE.2 (by omega))
      · simp
      · rename_i heqE; exact absurd heqE parseChar_ns
    · rename_i heqw
      unfold parseOptWhitespace at heqw
      cases heqw
    · rename_i heqw
      unfold parseOptWhitespace at heqw
      cases heqw
    · rename_i heqw
      unfold parseOptWhitespace at heqw
      cases heqw

theorem parseLineEndF_np {buf : List Nat} {fuel : Nat} :
    ∀ {p : Nat}, p ≤ buf.length → parseLineEndF buf fuel p ≠ .panic := by
  induction fuel with
  | zero => intro p hp h; cases h
  | succ k ih =>
    intro p hp
    unfold parseLineEndF
    split
    · rename_i u1 p1 heqw
      unfold parseOptWhitespace at heqw
      cases heqw
      have hsl := skipSpaces_le buf p hp
      split
      · simp
      · rename_i v p2 heqE
        have hE := parseChar_ok heqE
        split
        · simp
        · simp
        · rename_i heqR; exact absurd heqR (ih hE.2)
        · simp
      · rename_i heqE; exact absurd heqE (parseChar_np hsl)
      · simp
    · rename_i heqw
      unfold parseOptWhitespace at heqw
      cases heqw
    · rename_i heqw
      unfold parseOptWhitespace at heqw
      cases heqw
    · rename_i heqw
      unfold parseOptWhitespace at heqw
      cases heqw

theorem parseExpression_ok {buf : List Nat} {p : Nat} {n : GNode} {q : Nat}
    (h : parseExpression buf p = .ok n q) : p + 1 ≤ q ∧ q ≤ buf.length := by
  unfold parseExpression at h
  exact parseExpressionF_ok h

theorem parseExpression_err {buf : List Nat} {p : Nat} {e : Err} {q : Nat}
    (h : parseExpression buf p = .err e q) : p ≤ q ∧ q ≤ buf.length := by
  unfold parseExpression at h
  exact parseExpressionF_err h

theorem parseExpression_ns {buf : List Nat} {p : Nat} (hp : p ≤ buf.length) :
    parseExpression buf p ≠ .spin := by
  unfold parseExpression
  exact parseExpressionF_ns hp (by omega)

theorem parseExpression_np {buf : List Nat} {p : Nat} (hp : p ≤ buf.length) :
    parseExpression buf p ≠ .panic := by
  unfold parseExpression
  exact parseExpressionF_np hp

theorem parseLineEnd_ok {buf : List Nat} {p : Nat} {u : Unit} {q : Nat}
    (h : parseLineEnd buf p = .ok u q) : p ≤ q ∧ q ≤ buf.length := by
  unfold parseLineEnd at h
  exact parseLineEndF_ok h

theorem parseLineEnd_err {buf : List Nat} {p : Nat} {e : Err} {q : Nat}
    (h : parseLineEnd buf p = .err e q) :
    p ≤ q ∧ (p ≤ buf.length → q ≤ buf.length) := by
  unfold parseLineEnd at h
  exact parseLineEndF_err h

theorem parseLineEnd_ns {buf : List Nat} {p : Nat} (hp : p ≤ buf.length) :
    parseLineEnd buf p ≠ .spin := by
  unfold parseLineEnd
  exact parseLineEndF_ns hp (by omega)

theorem parseLineEnd_np {buf : List Nat} {p : Nat} (hp : p ≤ buf.length) :
    parseLineEnd buf p ≠ .panic := by
  unfold parseLineEnd
  exact parseLineEndF_np hp

theorem parseRule_ok {buf : List Nat} {p : Nat} {n : GNode} {q : Nat}
    (h : parseRule buf p = .ok n q) : p + 1 ≤ q ∧ q ≤ buf.length := by
  unfold parseRule at h
  split at h
  · rename_i u1 p1 heqw
    unfold parseOptWhitespace at heqw
    cases heqw
    have hs1 := skipSpaces_ge buf p
    split at h
    · cases h
    · rename_i nameNode p2 heqN
      have hN := sem_parseNonTerminal_ok heqN
      split at h
      · rename_i u2 p3 heqw2
        unfold parseOptWhitespace at heqw2
        cases heqw2
        have hs2 := skipSpaces_ge buf p2
        split at h
        · cases h
        · rename_i tok p4 heqD
          have hD := sem_parseDefinitionSimbol_ok heqD
          split at h
          · rename_i u3 p5 heqw3
            unfold parseOptWhitespace at heqw3
            cases heqw3
            have hs3 := skipSpaces_ge buf p4
            split at h
            · cases h
            · rename_i expr p6 heqE
              have hE := parseExpression_ok heqE
              split at h
              · rename_i e7 p7 heqF
                have hF := parseLineEnd_err heqF
                split_ifs at h
                cases h
                exact ⟨by omega, hF.2 hE.2⟩
              · rename_i u7 p7 heqF
                have hF := parseLineEnd_ok heqF
                cases h
                omega
              · cases h
              · cases h
            · cases h
            · cases h
          · cases h
          · cases h
          · cases h
        · cases h
        · cases h
      · rename_i heqw2
        unfold parseOptWhitespace at heqw2
        cases heqw2
      · rename_i heqw2
        unfold parseOptWhitespace at heqw2
        cases heqw2
      · rename_i heqw2
        unfold parseOptWhitespace at heqw2
        cases heqw2
    · cases h
    · cases h
  · rename_i heqw
    unfold parseOptWhitespace at heqw
    cases heqw
  · rename_i heqw
    unfold parseOptWhitespace at heqw
    cases heqw
  · rename_i heqw
    unfold parseOptWhitespace at heqw
    cases heqw

theorem parseRule_err {buf : List Nat} {p : Nat} {e : Err} {q : Nat}
    (h : parseRule buf p = .err e q) : p ≤ q ∧ q ≤ buf.length := by
  unfold parseRule at h
  split at h
  · rename_i u1 p1 heqw
    unfold parseOptWhitespace at heqw
    cases heqw
    have hs1 := skipSpaces_ge buf p
    split at h
    · rename_i e2 p2 heqN
      have hN := sem_parseNonTerminal_err heqN
      cases h
      omega
    · rename_i nameNode p2 heqN
      have hN := sem_parseNonTerminal_ok heqN
      split at h
      · rename_i u2 p3 heqw2
        unfold parseOptWhitespace at heqw2
        cases heqw2
        have hs2 := skipSpaces_ge buf p2
        have hs2l := skipSpaces_le buf p2 hN.2
        split at h
        · rename_i e4 p4 heqD
          have hD := sem_parseDefinitionSimbol_err heqD
          cases h
          omega
        · rename_i tok p4 heqD
          have hD := sem_parseDefinitionSimbol_ok heqD
          split at h
          · rename_i u3 p5 heqw3
            unfold parseOptWhitespace at heqw3
            cases heqw3
            have hs3 := skipSpaces_ge buf p4
            split at h
            · rename_i e6 p6 heqE
              have hE := parseExpression_err heqE
              cases h
              omega
            · rename_i expr p6 heqE
              have hE := parseExpression_ok heqE
              split at h
              · rename_i e7 p7 heqF
                have hF := parseLineEnd_err heqF
                split_ifs at h
                cases h
                exact ⟨by omega, hF.2 hE.2⟩
              · cases h
              · cases h
              · cases h
            · cases h
            · cases h
          · rename_i heqw3
            unfold parseOptWhitespace at heqw3
            cases heqw3
          · cases h
          · cases h
        · cases h
        · cases h
      · rename_i heqw2
        unfold parseOptWhitespace at heqw2
        cases heqw2
      · rename_i heqw2
        unfold parseOptWhitespace at heqw2
        cases heqw2
      · rename_i heqw2
        unfold parseOptWhitespace at heqw2
        cases heqw2
    · cases h
    · cases h
  · rename_i heqw
    unfold parseOptWhitespace at heqw
    cases heqw
  · rename_i heqw
    unfold parseOptWhitespace at heqw
    cases heqw
  · rename_i heqw
    unfold parseOptWhitespace at heqw
    cases heqw

theorem parseRule_ns {buf : List Nat} {p : Nat} (hp : p ≤ buf.length) :
    parseRule buf p ≠ .spin := by
  unfold parseRule
  split
  · rename_i u1 p1 heqw
    unfold parseOptWhitespace at heqw
    cases heqw
    have hs1l := skipSpaces_le buf p hp
    split
    · simp
    · rename_i nameNode p2 heqN
      have hN := sem_parseNonTerminal_ok heqN
      split
      · rename_i u2 p3 heqw2
        unfold parseOptWhitespace at heqw2
        cases heqw2
        have hs2l := skipSpaces_le buf p2 hN.2
        split
        · simp
        · rename_i tok p4 heqD
          have hD := sem_parseDefinitionSimbol_ok heqD
          split
          · rename_i u3 p5 heqw3
            unfold parseOptWhitespace at heqw3
            cases heqw3
            have hs3l := skipSpaces_le buf p4 hD.2
            split
            · simp
            · rename_i expr p6 heqE
              have hE := parseExpression_ok heqE
              split
              · split_ifs <;> simp
              · simp
              · simp
              · rename_i heqF; exact absurd heqF (parseLineEnd_ns hE.2)
            · simp
            · rename_i heqE; exact absurd heqE (parseExpression_ns hs3l)
          · simp
          · rename_i heqw3
            unfold parseOptWhitespace at heqw3
            cases heqw3
          · rename_i heqw3
            unfold parseOptWhitespace at heqw3
            cases heqw3
        · simp
        · rename_i heqD; exact absurd heqD sem_parseDefinitionSimbol_ns
      · rename_i heqw2
        unfold parseOptWhitespace at heqw2
        cases heqw2
      · rename_i heqw2
        unfold parseOptWhitespace at heqw2
        cases heqw2
      · rename_i heqw2
        unfold parseOptWhitespace at heqw2
        cases heqw2
    · simp
    · rename_i heqN; exact absurd heqN sem_parseNonTerminal_ns
  · rename_i heqw
    unfold parseOptWhitespace at heqw
    cases heqw
  · rename_i heqw
    unfold parseOptWhitespace at heqw
    cases heqw
  · rename_i heqw
    unfold parseOptWhitespace at heqw
    cases heqw

theorem parseRule_np {buf : List Nat} {p : Nat} (hp : p ≤ buf.length) :
    parseRule buf p ≠ .panic := by
  unfold parseRule
  split
  · rename_i u1 p1 heqw
    unfold parseOptWhitespace at heqw
    cases heqw
    have hs1l := skipSpaces_le buf p hp
    split
    · simp
    · rename_i nameNode p2 heqN
      have hN := sem_parseNonTerminal_ok heqN
      split
      · rename_i u2 p3 heqw2
        unfold parseOptWhitespace at heqw2
        cases heqw2
        have hs2l := skipSpaces_le buf p2 hN.2
        split
        · simp
        · rename_i tok p4 heqD
          have hD := sem_parseDefinitionSimbol_ok heqD
          split
          · rename_i u3 p5 heqw3
            unfold parseOptWhitespace at heqw3
            cases heqw3
            have hs3l := skipSpaces_le buf p4 hD.2
            split
            · simp
            · rename_i expr p6 heqE
              have hE := parseExpression_ok heqE
              split
              · split_ifs <;> simp
              · simp
              · rename_i heqF; exact absurd heqF (parseLineEnd_np hE.2)
              · simp
            · rename_i heqE; exact absurd heqE (parseExpression_np hs3l)
            · simp
          · simp
          · rename_i heqw3
            unfold parseOptWhitespace at heqw3
            cases heqw3
          · rename_i heqw3
            unfold parseOptWhitespace at heqw3
            cases heqw3
        · rename_i heqD; exact absurd heqD sem_parseDefinitionSimbol_np
        · simp
      · rename_i heqw2
        unfold parseOptWhitespace at heqw2
        cases heqw2
      · rename_i heqw2
        unfold parseOptWhitespace at heqw2
        cases heqw2
      · rename_i heqw2
        unfold parseOptWhitespace at heqw2
        cases heqw2
    · rename_i heqN; exact absurd heqN (sem_parseNonTerminal_np hs1l)
    · simp
  · rename_i heqw
    unfold parseOptWhitespace at heqw
    cases heqw
  · rename_i heqw
    unfold parseOptWhitespace at heqw
    cases heqw
  · rename_i heqw
    unfold parseOptWhitespace at heqw
    cases heqw

theorem parseAllF_ns {buf : List Nat} {fuel : Nat} :
    ∀ {p : Nat}, p ≤ buf.length → buf.length < fuel + p →
      parseAllF buf fuel p ≠ .spin := by
  induction fuel with
  | zero => intro p hp hf _; omega
  | succ n ih =>
    intro p hp hf
    unfold parseAllF
    split
    · split_ifs <;> simp
    · rename_i rule p1 heq
      have hq := parseRule_ok heq
      split
      · simp
      · simp
      · simp
      · rename_i heqR
        exact absurd heqR (ih hq.2 (by omega))
    · simp
    · rename_i heq; exact absurd heq (parseRule_ns hp)

theorem parseAllF_np {buf : List Nat} {fuel : Nat} :
    ∀ {p : Nat}, p ≤ buf.length → parseAllF buf fuel p ≠ .panic := by
  induction fuel with
  | zero => intro p hp h; cases h
  | succ n ih =>
    intro p hp
    unfold parseAllF
    split
    · split_ifs <;> simp
    · rename_i rule p1 heq
      have hq := parseRule_ok heq
      split
      · simp
      · simp
      · rename_i heqR
        exact absurd heqR (ih hq.2)
      · simp
    · rename_i heq; exact absurd heq (parseRule_np hp)
    · simp

/-- The semantic entry point never exhausts its fuel. -/
theorem Parse_ns (source : List Nat) : Parse source ≠ .spin := by
  unfold Parse
  split
  · simp
  · simp
  · simp
  · rename_i heq
    unfold parseAll at heq
    exact absurd heq (parseAllF_ns (by omega) (by omega))

/-- The semantic entry point never faults: its one unchecked multi-byte
read is backed by the buffer's spare capacity. -/
theorem semParse_np (source : List Nat) : Parse source ≠ .panic := by
  unfold Parse
  split
  · simp
  · simp
  · rename_i heq
    unfold parseAll at heq
    exact absurd heq (parseAllF_np (by omega))
  · simp

end Sem

/-- Every `Parse` call on a source whose lines stay below the scanner's
token-size limit returns a non-nil AST: the strict parser cannot fault
and the syntactic fallback cannot fail there. -/
theorem parse_total (source : List Nat) (htl : tooLong source = false) :
    ∃ ast, Parse source = .ok ast := by
  unfold Parse
  split
  · rename_i ast heq
    exact ⟨ast, rfl⟩
  · rename_i e heq
    split
    · rename_i astSyn heq2
      exact ⟨_, rfl⟩
    · rename_i e2 heq2
      rcases Syn.Parse_ok source htl with ⟨lemmes, hS⟩
      rw [hS] at heq2
      cases heq2
    · rename_i heq2
      rcases Syn.Parse_ok source htl with ⟨lemmes, hS⟩
      rw [hS] at heq2
      cases heq2
    · rename_i heq2
      rcases Syn.Parse_ok source htl with ⟨lemmes, hS⟩
      rw [hS] at heq2
      cases heq2
  · rename_i heq
    exact absurd heq (Sem.semParse_np source)
  · rename_i heq
    exact absurd heq (Sem.Parse_ns source)

/-- Every `Parse` call returns normally: either an AST or an error
value, never a runtime fault. -/
theorem parse_no_fault (source : List Nat) :
    (∃ ast, Parse source = .ok ast) ∨ ∃ e, Parse source = .err e := by
  unfold Parse
  split
  · exact .inl ⟨_, rfl⟩
  · split
    · exact .inl ⟨_, rfl⟩
    · exact .inr ⟨_, rfl⟩
    · rename_i heq2
      exact absurd heq2 (Syn.synParse_np source)
    · rename_i heq2
      exact absurd heq2 (Syn.synParse_ns source)
  · rename_i heq
    exact absurd heq (Sem.semParse_np source)
  · rename_i heq
    exact absurd heq (Sem.Parse_ns source)

/-- Whenever the strict parse fails with an error and no line reaches
the scanner's token-size limit, `Parse` returns the degraded AST of the
syntactic fallback with the strict error saved in its `err` field. -/
theorem parse_fallback (source : List Nat) (e : Err)
    (hS : Sem.Parse source = .err e) (htl : tooLong source = false) :
    ∃ lemmes, Parse source = .ok ⟨some e, lemmes, [], false⟩ := by
  rcases Syn.Parse_ok source htl with ⟨lemmes, hSyn⟩
  refine ⟨lemmes, ?_⟩
  unfold Parse
  split
  · rename_i ast heq
    rw [heq] at hS
    cases hS
  · rename_i e1 heq
    rw [heq] at hS
    cases hS
    split
    · rename_i astSyn heq2
      rw [hSyn] at heq2
      cases heq2
      rfl
    · rename_i e2 heq2
      rw [hSyn] at heq2
      cases heq2
    · rename_i heq2
      rw [hSyn] at heq2
      cases heq2
    · rename_i heq2
      rw [hSyn] at heq2
      cases heq2
  · rename_i heq
    rw [heq] at hS
    cases hS
  · rename_i heq
    rw [heq] at hS
    cases hS

/-- Number of `NonTerminal` nodes with a given name in a list. -/
def ntCount (l : List GNode) (name : List Nat) : Nat :=
  (l.filter fun n =>
    match n with
    | .nonTerminal t => decide (t.name = name)
    | _ => false).length

theorem ntCount_cons (n : GNode) (l : List GNode) (name : List Nat) :
    ntCount (n :: l) name = ntCount [n] name + ntCount l name := by
  unfold ntCount
  rw [List.filter_cons, List.filter_cons]
  split_ifs <;> simp <;> omega

/-- The incrementing visitor never errs and adds exactly one to the
count of the name of the `NonTerminal` node it visits. -/
theorem incVisitor_spec (n : GNode) (idx : Index) :
    ∃ idx2, incVisitor n idx = (none, idx2) ∧
      ∀ name, idx2 name = idx name + ntCount [n] name := by
  cases n with
  | nonTerminal t =>
    refine ⟨_, rfl, fun name => ?_⟩
    by_cases hname : name = t.name
    · subst hname
      simp [ntCount]
    · simp [ntCount, hname]
      exact fun hc => absurd hc.symm hname
  | terminal t => exact ⟨idx, rfl, fun name => by simp [ntCount]⟩
  | comment t => exact ⟨idx, rfl, fun name => by simp [ntCount]⟩
  | statement r c => exact ⟨idx, rfl, fun name => by simp [ntCount]⟩
  | assignment t l r => exact ⟨idx, rfl, fun name => by simp [ntCount]⟩
  | alternative t l r => exact ⟨idx, rfl, fun name => by simp [ntCount]⟩
  | compound t l r => exact ⟨idx, rfl, fun name => by simp [ntCount]⟩

theorem visitLoop_inc {fuel : Nat} :
    ∀ {stack : List (Option GNode)} {c : Nat} {idx : Index} {a : Nat}
      {e : Option Err} {idx' : Index},
      visitLoop incVisitor fuel stack c idx = .done a e idx' →
      e = none ∧ ∃ vis : List GNode, a = c + vis.length ∧
        ∀ name, idx' name = idx name + ntCount vis name := by
  induction fuel with
  | zero => intro stack c idx a e idx' h; cases h
  | succ m ih =>
    intro stack c idx a e idx' h
    unfold visitLoop at h
    split at h
    · cases h
      exact ⟨rfl, [], by simp, fun name => by simp [ntCount]⟩
    · rename_i top rest
      split at h
      · exact ih h
      · split at h
        · cases h
          exact ⟨rfl, [], by simp, fun name => by simp [ntCount]⟩
        · rename_i t rest2
          split at h
          · cases h
          · rename_i n
            split at h
            · rename_i e2 st2 heq
              rcases incVisitor_spec n idx with ⟨idx2, hspec, hcount⟩
              rw [hspec] at heq
              cases heq
            · rename_i st2 heq
              rcases incVisitor_spec n idx with ⟨idx2, hspec, hcount⟩
              rw [hspec] at heq
              injection heq with _ heq2
              subst heq2
              rcases ih h with ⟨he, vis, ha, hidx⟩
              refine ⟨he, n :: vis, by rw [ha, List.length_cons]; omega, fun name => ?_⟩
              rw [hidx name, hcount name]
              have hc := ntCount_cons n vis name
              omega

theorem lineWalk_inc :
    ∀ {nodes : List GNode} {i : Nat} {idx : Index} {a : Nat}
      {e : Option Err} {idx' : Index},
      lineWalk incVisitor nodes i idx = .done a e idx' →
      e = none ∧ ∃ vis : List GNode, a = i + vis.length ∧
        ∀ name, idx' name = idx name + ntCount vis name := by
  intro nodes
  induction nodes with
  | nil =>
    intro i idx a e idx' h
    cases h
    exact ⟨rfl, [], by simp, fun name => by simp [ntCount]⟩
  | cons n rest ih =>
    intro i idx a e idx' h
    unfold lineWalk at h
    split at h
    · rename_i e2 st2 heq
      rcases incVisitor_spec n idx with ⟨idx2, hspec, hcount⟩
      rw [hspec] at heq
      cases heq
    · rename_i st2 heq
      rcases incVisitor_spec n idx with ⟨idx2, hspec, hcount⟩
      rw [hspec] at heq
      injection heq with _ heq2
      subst heq2
      rcases ih h with ⟨he, vis, ha, hidx⟩
      refine ⟨he, n :: vis, by rw [ha, List.length_cons]; omega, fun name => ?_⟩
      rw [hidx name, hcount name]
      have hc := ntCount_cons n vis name
      omega

/-- Whatever AST `updateCompletionIndex` traverses, the final index adds
to each stored count exactly the number of `NonTerminal` nodes of that
name among the visited nodes — in particular no count ever decreases. -/
theorem updateCompletionIndex_inc (ast : AST) (idx : Index) {a : Nat}
    {e : Option Err} {idx' : Index}
    (h : updateCompletionIndex ast idx = .done a e idx') :
    ∃ vis : List GNode, ∀ name, idx' name = idx name + ntCount vis name := by
  unfold updateCompletionIndex AST.Traverse at h
  split_ifs at h
  · split at h
    · cases h
      exact ⟨[], fun name => by simp [ntCount]⟩
    · cases h
      exact ⟨[], fun name => by simp [ntCount]⟩
    · unfold astVisit at h
      rcases visitLoop_inc h with ⟨he, vis, ha, hidx⟩
      exact ⟨vis, hidx⟩
  · split at h
    · cases h
      exact ⟨[], fun name => by simp [ntCount]⟩
    · rcases lineWalk_inc h with ⟨he, vis, ha, hidx⟩
      exact ⟨vis, hidx⟩

/-! ### Claim theorems -/

/-- AST of a `Parse` result, with a placeholder for non-`ok` results. -/
def astOf (r : PRes) : AST :=
  match r with
  | .ok ast => ast
  | _ => ⟨none, [], [], true⟩

/-- Final index of a completed traversal, with a placeholder otherwise. -/
def indexAfter (r : TRes Index) : Index :=
  match r with
  | .done _ _ idx => idx
  | _ => fun _ => 0

/-- An all-letter byte run at the scanner's token-size limit: scanning
stops with `ErrTooLong` before any line is produced. -/
theorem splitLinesAux_replicate :
    ∀ (n : Nat) (acc : List Nat), maxScanTokenSize ≤ acc.length + n →
      splitLinesAux (List.replicate n 97) acc = ([], true) := by
  intro n
  induction n with
  | zero =>
    intro acc h
    rw [List.replicate_zero]
    unfold splitLinesAux
    rw [if_pos (by omega)]
  | succ m ih =>
    intro acc h
    rw [List.replicate_succ]
    unfold splitLinesAux
    rw [if_neg (by omega)]
    exact ih (97 :: acc) (by simp; omega)

/-- The loop of `parseOptWhitespace` stops at once on a non-space
byte. -/
theorem skipSpaces_stop {buf : List Nat} {p : Nat} (hlt : p < buf.length)
    (h32 : buf[p] ≠ 32) : skipSpaces buf p = p := by
  unfold skipSpaces
  rcases hk : buf.length - p with _ | k
  · rfl
  · unfold skipSpacesAux
    simp only [dif_pos hlt]
    rw [if_neg h32]

/-- `parseChar` on a present byte that is not the wanted one. -/
theorem parseChar_err_at {buf : List Nat} {c p b : Nat} (hb : buf[p]? = some b)
    (hbc : b ≠ c) (hp : p ≠ buf.length) :
    parseChar buf c p = .err .unexpectedChar p := by
  unfold parseChar
  rw [if_neg hp]
  simp only [hb]
  rw [if_neg hbc]

/-- The strict parse of a nonempty all-letter line fails at once on the
missing left angle bracket, whatever the line's length. -/
theorem semParse_replicate_err (n : Nat) (hn : 0 < n) :
    Sem.Parse (List.replicate n 97) = .err (.wrap .unexpectedChar 1) := by
  have hlen : (List.replicate n 97 : List Nat).length = n := by
    rw [List.length_replicate]
  have hlt : 0 < (List.replicate n 97 : List Nat).length := by omega
  have hb : (List.replicate n 97 : List Nat)[0]? = some 97 := by
    rw [List.getElem?_eq_getElem hlt, List.getElem_replicate]
  have hskip : skipSpaces (List.replicate n 97) 0 = 0 := by
    refine skipSpaces_stop hlt ?_
    rw [List.getElem_replicate]
    omega
  have hchar : parseChar (List.replicate n 97) 60 0 = .err .unexpectedChar 0 :=
    parseChar_err_at hb (by omega) (by omega)
  have hnt : Sem.parseNonTerminal (List.replicate n 97) 0 = .err .unexpectedChar 0 := by
    unfold Sem.parseNonTerminal parseLAngle
    simp only [hchar]
  have hrule : Sem.parseRule (List.replicate n 97) 0 = .err .unexpectedChar 0 := by
    unfold Sem.parseRule
    simp only [parseOptWhitespace, hskip, hnt]
  have hall : Sem.parseAll (List.replicate n 97) 0 = .err .unexpectedChar 0 := by
    unfold Sem.parseAll
    rw [hlen, Nat.sub_zero]
    unfold Sem.parseAllF
    simp only [hrule]
    rw [if_neg (by decide)]
  unfold Sem.Parse
  rw [hall]

/-- The tokenizer fallback on an all-letter line at or over the
scanner's token-size limit: the scanner stops with `ErrTooLong` before
producing a line, and `Parse` of `syntactic.go` wraps it at the unmoved
cursor. -/
theorem synParse_replicate_err (n : Nat) (hn : maxScanTokenSize ≤ n) :
    Syn.Parse (List.replicate n 97) = .err (.wrap .tooLong 1) := by
  have hsplit := splitLinesAux_replicate n [] (by simpa using hn)
  have h1 : splitLines (List.replicate n 97) = [] := by
    unfold splitLines
    rw [hsplit]
  have h2 : tooLong (List.replicate n 97) = true := by
    unfold tooLong
    rw [hsplit]
  unfold Syn.Parse
  simp only [h1, Syn.parseLines]
  rw [if_pos h2]

/-- C1 (amended): for every input in which no line reaches the
scanner's 64 KiB token-size limit, `Parse` returns a non-nil AST; and
whenever the strict (semantic) parse fails with an error (same
proviso), the returned AST is the degraded-mode one produced by the
permissive tokenizer with the strict parser's error saved in it (its
`Error()` accessor returns that error, not nil).  The amendment adds
the line-length proviso: on a longer line the tokenizer fallback itself
fails with `bufio.ErrTooLong` and `Parse` returns a nil AST with that
error (see the counterexample). -/
theorem C1_parse_nonnil_and_fallback :
    (∀ source : List Nat, tooLong source = false → ∃ ast, Parse source = .ok ast) ∧
    (∀ (source : List Nat) (e : Err), Sem.Parse source = .err e →
      tooLong source = false →
      ∃ lemmes, Parse source = .ok ⟨some e, lemmes, [], false⟩) :=
  ⟨fun source htl => parse_total source htl,
    fun source e hS htl => parse_fallback source e hS htl⟩

/-- When the strict parse and the tokenizer fallback both fail,
`parser.go` returns the fallback's error with a nil AST. -/
theorem parse_both_err {source : List Nat} {e1 e2 : Err}
    (h1 : Sem.Parse source = .err e1) (h2 : Syn.Parse source = .err e2) :
    Parse source = .err e2 := by
  unfold Parse
  rw [h1, h2]

/-- C1 counterexample: on a single line of 64 Ki letter bytes the strict
parse fails, the tokenizer fallback fails too (`bufio.ErrTooLong`), and
`Parse` returns an error with a nil AST, so the claim as stated (a
non-nil AST for every byte sequence) is false. -/
theorem C1_counterexample :
    Parse (List.replicate 65536 97) = .err (.wrap .tooLong 1) :=
  parse_both_err (semParse_replicate_err 65536 (by omega))
    (synParse_replicate_err 65536 le_rfl)

/-- C1 witness: on a line of three question marks the strict parse
fails, the scanner limit is not hit, `Parse` returns normally, and the
returned AST is degraded with the strict error saved. -/
theorem C1_witness :
    (tooLong (bytesOf ("???")) = false ∧
      ∃ ast, Parse (bytesOf ("???")) = .ok ast) ∧
    (Sem.Parse (bytesOf ("???")) = .err (.wrap .unexpectedChar 1) ∧
      ∃ lemmes, Parse (bytesOf ("???")) =
        .ok ⟨some (.wrap .unexpectedChar 1), lemmes, [], false⟩) :=
  ⟨⟨rfl, C1_parse_nonnil_and_fallback.1 _ rfl⟩,
    rfl, C1_parse_nonnil_and_fallback.2 _ _ rfl rfl⟩

/-- C2: `Parse` never faults — for every byte sequence it returns
either an AST or an error value, and on the line of a non-terminal, a
space and nothing else (where the three-byte assignment-symbol read
extends past the buffer length into `ioutil.ReadAll`'s zero-filled
spare capacity and merely misses the compare) it returns the degraded
AST with the strict positioned error saved. -/
theorem C2_parse_no_fault :
    (∀ source : List Nat,
      (∃ ast, Parse source = .ok ast) ∨ ∃ e, Parse source = .err e) ∧
    Sem.parseDefinitionSimbol (bytesOf ("<a> ")) 4 = .err .unexpectedChar 4 ∧
    Parse (bytesOf ("<a> ")) =
      .ok ⟨some (.wrap .unexpectedChar 5), [[.nonTerminal ⟨[97], 0, 3⟩]], [], false⟩ :=
  ⟨parse_no_fault, rfl, rfl⟩

/-- C3 (amended): `Traverse` on an AST holding zero statements returns
the pair `(0, ErrNoStatements)` — an error, not success — without
invoking the visitor (the result and the final state are independent
of the visitor). -/
theorem C3_traverse_zero_statements {σ : Type} :
    ∀ (ast : AST) (f : GNode → σ → Option Err × σ) (st : σ),
      ast.NoRules = 0 → ast.Traverse f st = .done 0 (some .noStatements) st := by
  intro ast f st h
  unfold AST.NoRules at h
  unfold AST.Traverse
  split_ifs at h ⊢ with hsem
  · split
    · rfl
    · rename_i heq
      rw [heq] at h
      simp at h
    · rename_i heq
      rw [heq] at h
      simp at h
  · split
    · rfl
    · rename_i heq
      rw [heq] at h
      simp at h

/-- C3 counterexample: on the empty degraded AST the traversal result
carries `ErrNoStatements`, so the claimed `(0, success)` is false. -/
theorem C3_counterexample :
    AST.Traverse (⟨none, [], [], false⟩ : AST) (fun _ (u : Unit) => (none, u)) () ≠
      .done 0 none () := by
  rw [show AST.Traverse (⟨none, [], [], false⟩ : AST) (fun _ (u : Unit) => (none, u)) () =
    .done 0 (some .noStatements) () from rfl]
  intro hcon
  cases hcon

/-- C3 witness: the amended statement at the empty degraded AST. -/
theorem C3_witness :
    (⟨none, [], [], false⟩ : AST).NoRules = 0 ∧
    AST.Traverse (⟨none, [], [], false⟩ : AST) (fun _ (u : Unit) => (none, u)) () =
      .done 0 (some .noStatements) () :=
  ⟨rfl, C3_traverse_zero_statements _ _ _ rfl⟩

/-- C4 (amended): the permissive tokenizer returns an ordered token
sequence with a nil error for every input — empty, single-byte or
arbitrary binary — whose lines all stay below the scanner's 64 KiB
token-size limit, and its per-line loop returns a token list with a nil
error for every line content and every starting cursor; at or over the
limit the scanner stops with `bufio.ErrTooLong`, which the tokenizer
returns with a nil AST. -/
theorem C4_tokenizer_total :
    (∀ source : List Nat, tooLong source = false →
      ∃ lemmes, Syn.Parse source = .ok ⟨none, lemmes, [], false⟩) ∧
    (∀ (buf : List Nat) (p : Nat), ∃ toks q, Syn.parseRule buf p = .ok toks q) :=
  ⟨Syn.Parse_ok, Syn.parseRule_total⟩

/-- C4 counterexample: a single line of 64 Ki letter bytes makes the
scanner fail with `ErrTooLong`, and the tokenizer returns an error with
a nil AST, not a token sequence. -/
theorem C4_counterexample :
    Syn.Parse (List.replicate 65536 97) = .err (.wrap .tooLong 1) :=
  synParse_replicate_err 65536 le_rfl

/-- C4 witness: on a short line the tokenizer returns its token AST with
a nil error. -/
theorem C4_witness :
    tooLong (bytesOf ("<a>")) = false ∧
    ∃ lemmes, Syn.Parse (bytesOf ("<a>")) = .ok ⟨none, lemmes, [], false⟩ :=
  ⟨rfl, C4_tokenizer_total.1 _ rfl⟩

/-- The month line of claim C5. -/
def monthBytes : List Nat := bytesOf ("<month> ::= \"January\" | \"February\"")

/-- The statement `Parse` builds for the month line: an
`AssignmentExpression` with the `month` non-terminal on the left and the
`January`/`February` alternative on the right. -/
def monthStmt : GNode :=
  .statement (some (.assignment ⟨[58, 58, 61], 8, 11⟩
    (some (.nonTerminal ⟨bytesOf ("month"), 0, 7⟩))
    (some (.alternative ⟨[124], 22, 23⟩
      (some (.terminal ⟨bytesOf ("January"), 12, 21⟩))
      (some (.terminal ⟨bytesOf ("February"), 24, 34⟩)))))) none

/-- C5 (amended): the strict parse of the month line succeeds with the
claimed statement structure — `AssignmentExpression` whose left child is
`NonTerminal month` and whose right child is an `AlternativeExpression`
of the terminals `January` and `February` — but the rule count is 2, not
1: `parseSyntax` appends a trailing nil rule at end of input. -/
theorem C5_month_structure :
    Parse monthBytes = .ok ⟨none, [], [some monthStmt, none], true⟩ ∧
    (astOf (Parse monthBytes)).NoRules = 2 :=
  ⟨rfl, rfl⟩

/-- C5 counterexample: the rule count of the month line is not 1. -/
theorem C5_counterexample : (astOf (Parse monthBytes)).NoRules ≠ 1 := by
  rw [show (astOf (Parse monthBytes)).NoRules = 2 from rfl]
  simp

/-- C6: in the strict parser's `parseExpression`, whenever the list at
the head parses successfully and the optional continuation fails — the
disjunction symbol is not there, or the recursive expression after it
fails — the cursor is restored exactly to the position recorded
immediately after the list and the list node itself is the whole result,
with no `AlternativeExpression` wrapper.  (The whitespace steps of the
continuation always succeed, so these are all the failing steps.) -/
theorem C6_expression_backtracks (buf : List Nat) (fuel p : Nat) (head : GNode)
    (p1 : Nat) (hlist : Sem.parseList buf p = .ok head p1)
    (hfail : (∃ e q, parseDisjunction buf (skipSpaces buf p1) = .err e q) ∨
      (∃ tok p3 e q, parseDisjunction buf (skipSpaces buf p1) = .ok tok p3 ∧
        Sem.parseExpressionF buf fuel (skipSpaces buf p3) = .err e q)) :
    Sem.parseExpressionF buf (fuel + 1) p = .ok head p1 := by
  rcases hfail with ⟨e, q, hdis⟩ | ⟨tok, p3, e, q, hdis, hrec⟩
  · simp only [Sem.parseExpressionF, parseOptWhitespace, hlist, hdis]
  · simp only [Sem.parseExpressionF, parseOptWhitespace, hlist, hdis, hrec]

/-- C6 witness: a lone terminal list with nothing after it degenerates
to the terminal itself, at the cursor recorded right after the list. -/
theorem C6_witness :
    Sem.parseList (bytesOf ("\"x\"")) 0 = .ok (.terminal ⟨[120], 0, 3⟩) 3 ∧
    parseDisjunction (bytesOf ("\"x\"")) (skipSpaces (bytesOf ("\"x\"")) 3) =
      .err .eof 3 ∧
    Sem.parseExpressionF (bytesOf ("\"x\"")) 1 0 = .ok (.terminal ⟨[120], 0, 3⟩) 3 :=
  ⟨rfl, rfl,
    C6_expression_backtracks (bytesOf ("\"x\"")) 0 0 (.terminal ⟨[120], 0, 3⟩) 3 rfl
      (.inl ⟨.eof, 3, rfl⟩)⟩

/-- C7 (code bug): on the line of a rule whose terminal literal is never
closed, the strict parse does not fail with a positioned error at the
opening quote: the end-of-input error from the literal reaches
`parseSyntax`, which treats `io.EOF` as successful completion and
returns a single nil rule, so `Parse` returns the strict semantic-mode
AST with a nil saved error and no token sequence at all — the degraded
tokenizer, which does hold the non-terminal and assignment-symbol
tokens, is never consulted. -/
theorem C7_unterminated_literal :
    Sem.Parse (bytesOf ("<a> ::= \"unterminated")) = .ok ⟨none, [], [none], true⟩ ∧
    Parse (bytesOf ("<a> ::= \"unterminated")) = .ok ⟨none, [], [none], true⟩ ∧
    Syn.parseRule (bytesOf ("<a> ::= \"unterminated")) 0 =
      .ok [.nonTerminal ⟨[97], 0, 3⟩, .assignment ⟨[58, 58, 61], 4, 7⟩ none none] 22 :=
  ⟨rfl, rfl, rfl⟩

/-- C8 (code bug): the permissive tokenizer emits the assignment-symbol
token spanning three bytes whenever the bytes at the cursor read `::=`
and at least one byte follows them, but the out-of-buffer check uses
`>=` where reading three bytes needs only `>`, so a `::=` occupying the
final three bytes of the line is rejected with `io.EOF` and no token:
tokenizing the line of a non-terminal and a trailing `::=` yields only
the non-terminal token. -/
theorem C8_trailing_defsymbol :
    (∀ (buf : List Nat) (p : Nat), p + 3 < buf.length →
      (buf.drop p).take 3 = [58, 58, 61] →
      Syn.parseDefinitionSimbol buf p = .ok ⟨[58, 58, 61], p, p + 3⟩ (p + 3)) ∧
    Syn.parseDefinitionSimbol (bytesOf ("<a> ::=")) 4 = .err .eof 4 ∧
    Syn.parseRule (bytesOf ("<a> ::=")) 0 = .ok [.nonTerminal ⟨[97], 0, 3⟩] 7 := by
  refine ⟨?_, rfl, rfl⟩
  intro buf p hlt hbytes
  unfold Syn.parseDefinitionSimbol
  rw [if_neg (by omega), if_pos hbytes]

/-- C8 witness: a `::=` with a byte after it does produce the token. -/
theorem C8_witness :
    Syn.parseDefinitionSimbol (bytesOf ("<a> ::= <b>")) 4 =
      .ok ⟨[58, 58, 61], 4, 7⟩ 7 :=
  C8_trailing_defsymbol.1 (bytesOf ("<a> ::= <b>")) 4 (by decide) (by decide)

/-- C9: the completion index only ever grows — every completed traversal
by `updateCompletionIndex` leaves each stored count no smaller, adding
to it exactly the number of `NonTerminal` nodes of that name among the
visited nodes — and after two successive updates over the parse of a
rule referencing the non-terminal `b` once, the count stored for `b` is
exactly 2. -/
theorem C9_completion_index_monotone :
    (∀ (ast : AST) (idx : Index) (a : Nat) (e : Option Err) (idx2 : Index),
      updateCompletionIndex ast idx = .done a e idx2 →
      (∀ name, idx name ≤ idx2 name) ∧
      ∃ vis : List GNode, ∀ name, idx2 name = idx name + ntCount vis name) ∧
    indexAfter (updateCompletionIndex (astOf (Parse (bytesOf ("<a> ::= <b>"))))
        (indexAfter (updateCompletionIndex (astOf (Parse (bytesOf ("<a> ::= <b>"))))
          (fun _ => 0)))) (bytesOf ("b")) = 2 := by
  constructor
  · intro ast idx a e idx2 h
    rcases updateCompletionIndex_inc ast idx h with ⟨vis, hidx⟩
    exact ⟨fun name => by have := hidx name; omega, vis, hidx⟩
  · rfl

/-- C9 witness: one concrete update over the parsed rule does not
decrease the count stored for `b`. -/
theorem C9_witness :
    (0 : Nat) ≤ indexAfter (updateCompletionIndex
      (astOf (Parse (bytesOf ("<a> ::= <b>")))) (fun _ => 0)) (bytesOf ("b")) := by
  have h : updateCompletionIndex (astOf (Parse (bytesOf ("<a> ::= <b>"))))
      (fun _ => 0) = .done 4 none (indexAfter (updateCompletionIndex
        (astOf (Parse (bytesOf ("<a> ::= <b>")))) (fun _ => 0))) := rfl
  exact (C9_completion_index_monotone.1 _ _ 4 none _ h).1 (bytesOf ("b"))

/-- C10: the token loop of the permissive tokenizer terminates on every
finite line — each iteration strictly advances the cursor, every
successful sub-parse (disjunction, assignment symbol, atom, comment)
consumes at least one byte, no failed sub-parse moves the cursor
backwards, when all four sub-parses fail the cursor advances by exactly
one byte past the last failure, and the loop at its entry fuel returns a
token list. -/
theorem C10_tokenizer_loop :
    (∀ (buf : List Nat) (p : Nat) (v : Option GNode) (q : Nat),
      Syn.ruleStep buf p = .ok v q → p + 1 ≤ q) ∧
    (∀ (buf : List Nat) (p : Nat) (tok : Tok) (q : Nat),
      parseDisjunction buf p = .ok tok q → p + 1 ≤ q) ∧
    (∀ (buf : List Nat) (p : Nat) (tok : Tok) (q : Nat),
      Syn.parseDefinitionSimbol buf p = .ok tok q → p + 1 ≤ q) ∧
    (∀ (buf : List Nat) (p : Nat) (n : GNode) (q : Nat),
      Syn.parseAtom buf p = .ok n q → p + 1 ≤ q) ∧
    (∀ (buf : List Nat) (p : Nat) (n : GNode) (q : Nat),
      Syn.parseComment buf p = .ok n q → p + 1 ≤ q) ∧
    (∀ (buf : List Nat) (p : Nat) (e : Err) (q : Nat),
      parseDisjunction buf p = .err e q → p ≤ q) ∧
    (∀ (buf : List Nat) (p : Nat) (e : Err) (q : Nat),
      Syn.parseDefinitionSimbol buf p = .err e q → p ≤ q) ∧
    (∀ (buf : List Nat) (p : Nat) (e : Err) (q : Nat),
      Syn.parseAtom buf p = .err e q → p ≤ q) ∧
    (∀ (buf : List Nat) (p : Nat) (e : Err) (q : Nat),
      Syn.parseComment buf p = .err e q → p ≤ q) ∧
    (∀ (buf : List Nat) (p q1 q2 q3 q4 : Nat) (e1 e2 e3 e4 : Err),
      parseDisjunction buf p = .err e1 q1 →
      Syn.parseDefinitionSimbol buf q1 = .err e2 q2 →
      Syn.parseAtom buf q2 = .err e3 q3 →
      Syn.parseComment buf q3 = .err e4 q4 →
      Syn.ruleStep buf p = .ok none (q4 + 1)) ∧
    (∀ (buf : List Nat) (p : Nat), ∃ toks q, Syn.parseRule buf p = .ok toks q) := by
  refine ⟨fun buf p v q h => Syn.ruleStep_ok h,
    fun buf p tok q h => by have := parseDisjunction_ok h; omega,
    fun buf p tok q h => by have := Syn.parseDefinitionSimbol_ok h; omega,
    fun buf p n q h => (Syn.parseAtom_ok h).1,
    fun buf p n q h => (Syn.parseComment_ok h).1,
    fun buf p e q h => by have := parseDisjunction_err h; omega,
    fun buf p e q h => by have := Syn.parseDefinitionSimbol_err h; omega,
    fun buf p e q h => (Syn.parseAtom_err h).1,
    fun buf p e q h => by have := (Syn.parseComment_err h).1; omega,
    ?_, fun buf p => Syn.parseRule_total buf p⟩
  intro buf p q1 q2 q3 q4 e1 e2 e3 e4 h1 h2 h3 h4
  unfold Syn.ruleStep
  simp only [h1, h2, h3, h4]

/-- C10 witness: concrete instances of each cursor bound — the four
sub-parses all failing on a lone space advances the cursor to one, each
successful sub-parse consumes at least one byte, and no failing one
moves backwards. -/
theorem C10_witness :
    Syn.ruleStep (bytesOf (" ")) 0 = .ok none 1 ∧
    (0 + 1 ≤ 1) ∧ (0 + 1 ≤ 1) ∧ (0 + 1 ≤ 3) ∧ (0 + 1 ≤ 3) ∧ (0 + 1 ≤ 2) ∧
    (0 ≤ 0) ∧ (0 ≤ 0) ∧ (0 ≤ 0) ∧ (0 ≤ 0) := by
  refine ⟨?_, ?_, ?_, ?_, ?_, ?_, ?_, ?_, ?_, ?_⟩
  · exact C10_tokenizer_loop.2.2.2.2.2.2.2.2.2.1 (bytesOf (" ")) 0 0 0 0 0
      _ _ _ _ rfl rfl rfl rfl
  · exact C10_tokenizer_loop.1 (bytesOf ("|")) 0
      (some (.alternative ⟨[124], 0, 1⟩ none none)) 1 rfl
  · exact C10_tokenizer_loop.2.1 (bytesOf ("|")) 0 ⟨[124], 0, 1⟩ 1 rfl
  · exact C10_tokenizer_loop.2.2.1 (bytesOf ("::=x")) 0 ⟨[58, 58, 61], 0, 3⟩ 3 rfl
  · exact C10_tokenizer_loop.2.2.2.1 (bytesOf ("<a>")) 0 (.nonTerminal ⟨[97], 0, 3⟩) 3 rfl
  · exact C10_tokenizer_loop.2.2.2.2.1 (bytesOf (";c")) 0 (.comment ⟨[], 0, 2⟩) 2 rfl
  · exact C10_tokenizer_loop.2.2.2.2.2.1 (bytesOf (" ")) 0 .unexpectedChar 0 rfl
  · exact C10_tokenizer_loop.2.2.2.2.2.2.1 (bytesOf (" ")) 0 .eof 0 rfl
  · exact C10_tokenizer_loop.2.2.2.2.2.2.2.1 (bytesOf (" ")) 0
      (.desc .unexpectedChar 0 "non-terminal") 0 rfl
  · exact C10_tokenizer_loop.2.2.2.2.2.2.2.2.1 (bytesOf (" ")) 0 .unexpectedChar 0 rfl
